import Mathlib

/-!
Verification of the gg command-line broker and its licensing backend.

The Go CLI (`src/main.go`) and the TypeScript Cloudflare worker
(`src/backend/src/index.ts`) are shallowly embedded below: pure string and
list manipulation is translated directly, the file system and the key-value
store are modelled as association lists, HTTP and randomness are passed in
as explicit parameters, and Go / JS machine behaviour (regexp scanning,
`strings.TrimSpace`, `String.prototype.replace`, JSON encoding of string
slices) is implemented over `List Char`.
-/

namespace GG

/-! ### Generic association-list store

Used for the file system (path ↦ file content) and, with record values, for
the worker's key-value namespace.  `putAssoc` overwrites the binding of an
existing key in place, like `os.WriteFile` on an existing path or `KV.put`. -/

def lookupAssoc {V : Type} (m : List (String × V)) (k : String) : Option V :=
  (m.find? (fun kv => kv.1 == k)).map (fun kv => kv.2)

def putAssoc {V : Type} : List (String × V) → String → V → List (String × V)
  | [], k, v => [(k, v)]
  | (k', v') :: t, k, v =>
      if k' == k then (k, v) :: t else (k', v') :: putAssoc t k v

theorem lookupAssoc_putAssoc_same {V : Type} (m : List (String × V)) (k : String) (v : V) :
    lookupAssoc (putAssoc m k v) k = some v := by
  induction m with
  | nil => simp [lookupAssoc, putAssoc, List.find?]
  | cons kv t ih =>
      by_cases h : kv.1 == k
      · simp [putAssoc, h, lookupAssoc, List.find?]
      · simp only [putAssoc]
        rw [if_neg (by simpa using h)]
        simpa [lookupAssoc, List.find?, h] using ih

theorem lookupAssoc_putAssoc_other {V : Type} (m : List (String × V)) (k k' : String) (v : V)
    (h : k' ≠ k) : lookupAssoc (putAssoc m k v) k' = lookupAssoc m k' := by
  induction m with
  | nil =>
      simp only [putAssoc, lookupAssoc, List.find?]
      have : (k == k') = false := by
        simpa [beq_iff_eq] using fun hh => h hh.symm
      simp [this]
  | cons kv t ih =>
      by_cases hk : kv.1 == k
      · have hkk : kv.1 = k := by simpa [beq_iff_eq] using hk
        have h1 : (k == k') = false := by
          simpa [beq_iff_eq] using fun hh => h hh.symm
        have h2 : (kv.1 == k') = false := by
          simp [beq_iff_eq, hkk]
          intro hh; exact h hh.symm
        simp [putAssoc, hk, lookupAssoc, List.find?, h1, h2]
      · simp only [putAssoc]
        rw [if_neg (by simpa using hk)]
        by_cases hk' : kv.1 == k'
        · simp [lookupAssoc, List.find?, hk']
        · simpa [lookupAssoc, List.find?, hk'] using ih

/-! ### C2: free-vs-pro gating in `handleAsk` (src/main.go:561-617, 1006-1009) -/

structure Secrets where
  AnthropicAPIKey : String
  ProLicenseKey : String
  deriving DecidableEq

structure Config where
  Secrets : Secrets
  Provider : String
  deriving DecidableEq

/-- `strings.HasPrefix` / JS `startsWith`, character-wise. -/
def strHasPrefix (p s : String) : Bool := p.data.isPrefixOf s.data

/-- `checkProTier` from src/main.go:1006-1009. -/
def checkProTier (cfg : Config) : Bool :=
  cfg.Secrets.ProLicenseKey != "" &&
    strHasPrefix "gg_pro_" cfg.Secrets.ProLicenseKey

/-- Control-flow outcome of `handleAsk` up to (and including) the decision to
call the LLM provider.  `apiCall` means execution reached `callAPIStreaming`;
every other constructor returns or exits before any provider request, file
write or git invocation. -/
inductive AskResult where
  | emptyPrompt
  | configError
  | upgradeNotice
  | fatalMsg (msg : String)
  | authFailed
  | apiCall
  deriving DecidableEq

/-- `handleAsk` from src/main.go:561-617, with `loadConfig`, GitHub
authentication and repository detection supplied as parameters (they call
external binaries). -/
def handleAskFlow (proMode : Bool) (prompt : String) (cfgOpt : Option Config)
    (authOk : Bool) (repoName : String) : AskResult :=
  if prompt == "" then .emptyPrompt
  else
    match cfgOpt with
    | none => .configError
    | some cfg =>
        if !proMode && !checkProTier cfg then .upgradeNotice
        else if proMode && !checkProTier cfg then .fatalMsg "Pro license not found in config"
        else if !authOk then .authFailed
        else if repoName == "" then .fatalMsg "Not in a git repository"
        else .apiCall

/-- Claim C2: with a non-empty prompt and a loaded config, running without
`--pro` while the decrypted `ProLicenseKey` fails the `gg_pro_` check prints
the upgrade notice and returns before any provider call; running with
`--pro` under the same failing check exits with "Pro license not found in
config"; and the API call is reached only when `checkProTier` holds. -/
theorem handleAsk_pro_gating (proMode : Bool) (prompt : String) (cfg : Config)
    (authOk : Bool) (repoName : String) (hp : prompt ≠ "") :
    ((proMode = false ∧ checkProTier cfg = false) →
        handleAskFlow proMode prompt (some cfg) authOk repoName = .upgradeNotice) ∧
    ((proMode = true ∧ checkProTier cfg = false) →
        handleAskFlow proMode prompt (some cfg) authOk repoName =
          .fatalMsg "Pro license not found in config") ∧
    (handleAskFlow proMode prompt (some cfg) authOk repoName = .apiCall →
        checkProTier cfg = true) := by
  have hp' : (prompt == "") = false := by simpa [beq_iff_eq] using hp
  refine ⟨?_, ?_, ?_⟩
  · rintro ⟨h1, h2⟩
    simp [handleAskFlow, hp', h1, h2]
  · rintro ⟨h1, h2⟩
    simp [handleAskFlow, hp', h1, h2]
  · intro h
    by_cases hc : checkProTier cfg = true
    · exact hc
    · exfalso
      have hc' : checkProTier cfg = false := by simpa using hc
      cases proMode <;> simp [handleAskFlow, hp', hc'] at h

/-- Witness for `handleAsk_pro_gating` at a concrete configuration. -/
theorem handleAsk_pro_gating_witness :
    handleAskFlow false "add a feature"
        (some ⟨⟨"", ""⟩, "anthropic"⟩) true "o/r" = .upgradeNotice :=
  (handleAsk_pro_gating false "add a feature" ⟨⟨"", ""⟩, "anthropic"⟩ true "o/r"
      (by decide)).1 ⟨rfl, by decide⟩

/-! ### C3: provider dispatch at the streaming and non-streaming call sites
(src/main.go:1296-1319 and 2415-2426) -/

def ProviderAnthropic : String := "anthropic"
def ProviderOpenAI : String := "openai"
def ProviderOllama : String := "ollama"

/-- The three request builders the call sites can select. -/
inductive Builder where
  | anthropic
  | openai
  | ollama
  deriving DecidableEq

/-- The `switch provider` in `callAPIStreaming` (src/main.go:1311-1318):
`openai` and `ollama` have cases, everything else falls into `default`,
which calls `callAnthropicStreaming`. -/
def callAPIStreamingDispatch (provider : String) : Builder :=
  if provider == ProviderOpenAI then .openai
  else if provider == ProviderOllama then .ollama
  else .anthropic

/-- The `switch provider` in `callAPIWithSystem` (src/main.go:2415-2426):
`anthropic`, `ollama` and `openai` have cases, everything else returns the
error "unsupported provider". -/
def callAPIWithSystemDispatch (provider : String) : Option Builder :=
  if provider == ProviderAnthropic then some .anthropic
  else if provider == ProviderOllama then some .ollama
  else if provider == ProviderOpenAI then some .openai
  else none

/-- Counterexample to claim C3 as stated: the two call sites do not treat
every non-listed provider value the same way.  For provider "mistral" the
streaming site selects the Anthropic builder while the non-streaming site
fails with "unsupported provider". -/
theorem dispatch_counterexample :
    ¬ callAPIWithSystemDispatch "mistral" =
        some (callAPIStreamingDispatch "mistral") := by
  decide

/-- Claim C3 as amended: the two call sites agree on the three named
providers ("openai" selects OpenAI, "ollama" selects Ollama, "anthropic"
selects Anthropic); on every other provider value they diverge, the
streaming site falling back to the Anthropic builder and the non-streaming
site returning an unsupported-provider error. -/
theorem dispatch_agreement (provider : String) :
    ((provider = ProviderAnthropic ∨ provider = ProviderOpenAI ∨
        provider = ProviderOllama) →
      callAPIWithSystemDispatch provider =
        some (callAPIStreamingDispatch provider)) ∧
    ((provider ≠ ProviderAnthropic ∧ provider ≠ ProviderOpenAI ∧
        provider ≠ ProviderOllama) →
      callAPIStreamingDispatch provider = .anthropic ∧
        callAPIWithSystemDispatch provider = none) := by
  constructor
  · rintro (h | h | h) <;> subst h <;> decide
  · rintro ⟨h1, h2, h3⟩
    have b1 : (provider == ProviderAnthropic) = false := by simpa [beq_iff_eq] using h1
    have b2 : (provider == ProviderOpenAI) = false := by simpa [beq_iff_eq] using h2
    have b3 : (provider == ProviderOllama) = false := by simpa [beq_iff_eq] using h3
    constructor
    · simp [callAPIStreamingDispatch, b2, b3]
    · simp [callAPIWithSystemDispatch, b1, b2, b3]

/-- Witness for `dispatch_agreement` at the provider value "openai". -/
theorem dispatch_agreement_witness :
    callAPIWithSystemDispatch "openai" =
      some (callAPIStreamingDispatch "openai") :=
  (dispatch_agreement "openai").1 (Or.inr (Or.inl rfl))

/-! ### C4: `gg cache clean` (src/main.go:2132-2170) -/

/-- One entry seen by `filepath.Walk` over the cache directory: its path,
whether `info.IsDir()` holds, its modification time and its size.  Times are
modelled as integers (seconds). -/
structure CacheEntry where
  path : String
  isDir : Bool
  mtime : Int
  size : Int
  deriving DecidableEq

/-- `time.Now().AddDate(0, 0, -7)`: seven days before the current time. -/
def cleanCutoff (now : Int) : Int := now - 7 * 86400

/-- An entry is removed by the sweep when it is a regular file whose
modification time is strictly before the cutoff (`e.mtime.Before(cutoff)`). -/
def isOldFile (now : Int) (e : CacheEntry) : Bool :=
  !e.isDir && decide (e.mtime < cleanCutoff now)

structure CleanResult where
  removedFiles : List CacheEntry
  freed : Int
  removedCount : Nat
  deriving DecidableEq

/-- `cleanCache` from src/main.go:2144-2170: collect the non-directory
entries of the walk, then loop over them removing those older than seven
days while accumulating the freed byte count and the number of removals. -/
def cleanCache (entries : List CacheEntry) (now : Int) : CleanResult :=
  let files := entries.filter (fun e => !e.isDir)
  files.foldl
    (fun acc e =>
      if decide (e.mtime < cleanCutoff now) then
        { removedFiles := acc.removedFiles ++ [e],
          freed := acc.freed + e.size,
          removedCount := acc.removedCount + 1 }
      else acc)
    ⟨[], 0, 0⟩

theorem cleanCache_foldl_general (now : Int) (files : List CacheEntry)
    (acc : CleanResult) :
    files.foldl
      (fun acc e =>
        if decide (e.mtime < cleanCutoff now) then
          { removedFiles := acc.removedFiles ++ [e],
            freed := acc.freed + e.size,
            removedCount := acc.removedCount + 1 }
        else acc)
      acc =
    { removedFiles :=
        acc.removedFiles ++ files.filter (fun e => decide (e.mtime < cleanCutoff now)),
      freed :=
        acc.freed +
          ((files.filter (fun e => decide (e.mtime < cleanCutoff now))).map
              (fun e => e.size)).sum,
      removedCount :=
        acc.removedCount +
          (files.filter (fun e => decide (e.mtime < cleanCutoff now))).length } := by
  induction files generalizing acc with
  | nil => simp
  | cons e t ih =>
      by_cases h : e.mtime < cleanCutoff now
      · have hd : decide (e.mtime < cleanCutoff now) = true := by simpa using h
        simp only [List.foldl_cons, List.filter_cons, hd, if_true]
        rw [ih]
        simp [add_assoc, add_comm, add_left_comm]
      · have hd : decide (e.mtime < cleanCutoff now) = false := by simpa using h
        simp only [List.foldl_cons, List.filter_cons, hd, if_false, Bool.false_eq_true]
        rw [ih]

/-- Claim C4: the sweep removes exactly the regular (non-directory) files
whose modification time is more than seven days before the current time,
leaves every regular file with a newer modification time in place, reports
the number of removed entries, and reports the sum of their sizes as the
bytes freed. -/
theorem cleanCache_spec (entries : List CacheEntry) (now : Int)
    (hnd : (entries.map (fun e => e.path)).Nodup) :
    (cleanCache entries now).removedFiles = entries.filter (isOldFile now) ∧
    (cleanCache entries now).removedCount = (entries.filter (isOldFile now)).length ∧
    (cleanCache entries now).freed =
      ((entries.filter (isOldFile now)).map (fun e => e.size)).sum ∧
    (∀ e ∈ entries, e.isDir = false → cleanCutoff now ≤ e.mtime →
      e.path ∉ ((cleanCache entries now).removedFiles.map (fun e => e.path))) := by
  have hfilter :
      (entries.filter (fun e => !e.isDir)).filter
          (fun e => decide (e.mtime < cleanCutoff now)) =
        entries.filter (isOldFile now) := by
    rw [List.filter_filter]
    apply List.filter_congr
    intro e _
    simp [isOldFile, Bool.and_comm]
  have hmain := cleanCache_foldl_general now (entries.filter (fun e => !e.isDir)) ⟨[], 0, 0⟩
  have h1 : (cleanCache entries now).removedFiles = entries.filter (isOldFile now) := by
    rw [cleanCache, hmain]
    simpa using hfilter
  refine ⟨h1, ?_, ?_, ?_⟩
  · rw [cleanCache, hmain]
    simp [hfilter]
  · rw [cleanCache, hmain]
    simp [hfilter]
  · intro e he hdir hnew hmem
    rw [h1] at hmem
    rcases List.mem_map.mp hmem with ⟨e', he', hpath⟩
    have he'' := List.mem_filter.mp he'
    have hold : e'.mtime < cleanCutoff now := by
      have := he''.2
      simp [isOldFile] at this
      exact this.2
    have heq : e = e' :=
      List.inj_on_of_nodup_map hnd he he''.1 hpath.symm
    subst heq
    omega

/-- Witness for `cleanCache_spec` on a two-file cache at time 10^6: the
8-day-old file is removed, the 1-day-old file is kept. -/
theorem cleanCache_spec_witness :
    (cleanCache
        [⟨"npm/a.json", false, 1000000 - 8 * 86400, 120⟩,
         ⟨"npm/b.json", false, 1000000 - 86400, 50⟩] 1000000).removedFiles =
      [⟨"npm/a.json", false, 1000000 - 8 * 86400, 120⟩] := by
  have h := cleanCache_spec
      [⟨"npm/a.json", false, 1000000 - 8 * 86400, 120⟩,
       ⟨"npm/b.json", false, 1000000 - 86400, 50⟩] 1000000 (by decide)
  rw [h.1]
  decide

/-! ### C6, C10: the licensing backend's key-value store
(src/backend/src/index.ts)

The KV namespace stores JSON-serialized license records.  `JSON.stringify`
is injective on these records and every read goes back through
`JSON.parse`, so the store is modelled as an association list from keys to
the records themselves. -/

structure LicenseData where
  license_key : String
  email : String
  customer_id : String
  subscription_id : String
  status : String
  created_at : String
  updated_at : String
  revoked_at : Option String
  deriving DecidableEq

abbrev KV := List (String × LicenseData)

def kvGet (kv : KV) (k : String) : Option LicenseData := lookupAssoc kv k

def kvPut (kv : KV) (k : String) (v : LicenseData) : KV := putAssoc kv k v

/-- `env.GG_KV.list({ prefix })`: the keys of the namespace that carry the
given prefix, in store order. -/
def kvListKeys (kv : KV) (p : String) : List String :=
  (kv.map (fun kv => kv.1)).filter (fun k => strHasPrefix p k)

/-- `key.name.replace('license:', '')` — JS `String.prototype.replace` with
a string pattern removes the first occurrence of the pattern. -/
def removeFirstChars (pat : List Char) : List Char → List Char
  | [] => []
  | c :: t =>
      if pat.isPrefixOf (c :: t) then (c :: t).drop pat.length
      else c :: removeFirstChars pat t

def removeFirst (pat s : String) : String := String.mk (removeFirstChars pat.data s.data)

theorem removeFirstChars_append (pat rest : List Char) (hp : pat ≠ []) :
    removeFirstChars pat (pat ++ rest) = rest := by
  match pat, hp with
  | c :: p', _ =>
      have hpre : (c :: p').isPrefixOf ((c :: p') ++ rest) = true := by
        induction p' generalizing c with
        | nil => simp [List.isPrefixOf]
        | cons d p'' ih => simp [List.isPrefixOf, ih d]
      simp [removeFirstChars, hpre]

/-- `findLicenseByCustomer` (src/backend/src/index.ts:293-309): list the
keys under "license:", then scan them in order, returning the first key
whose stored record has the sought `customer_id`, with the prefix
stripped. -/
def findLicenseByCustomer (kv : KV) (customerId : String) : Option String :=
  let rec go : List String → Option String
    | [] => none
    | k :: rest =>
        match kvGet kv k with
        | some data =>
            if data.customer_id == customerId then some (removeFirst "license:" k)
            else go rest
        | none => go rest
  go (kvListKeys kv "license:")

theorem isPrefixOf_eq_true_iff (a b : List Char) :
    a.isPrefixOf b = true ↔ ∃ t, a ++ t = b := by
  induction a generalizing b with
  | nil => simp [List.isPrefixOf]
  | cons c a' ih =>
      cases b with
      | nil => simp [List.isPrefixOf]
      | cons d b' =>
          simp only [List.isPrefixOf, Bool.and_eq_true, beq_iff_eq, ih]
          constructor
          · rintro ⟨rfl, t, rfl⟩
            exact ⟨t, rfl⟩
          · rintro ⟨t, ht⟩
            injection ht with h1 h2
            exact ⟨h1, t, h2⟩

theorem strHasPrefix_iff (a b : String) :
    strHasPrefix a b = true ↔ ∃ t : String, a ++ t = b := by
  rw [strHasPrefix, isPrefixOf_eq_true_iff]
  constructor
  · rintro ⟨t, ht⟩
    exact ⟨String.mk t, String.ext (by simpa using ht)⟩
  · rintro ⟨t, rfl⟩
    exact ⟨t.data, by simp⟩

theorem lookupAssoc_mem {V : Type} {m : List (String × V)} {k : String} {v : V}
    (h : lookupAssoc m k = some v) : (k, v) ∈ m := by
  induction m with
  | nil => simp [lookupAssoc, List.find?] at h
  | cons kv t ih =>
      obtain ⟨k1, v1⟩ := kv
      by_cases hk : k1 == k
      · have hk' : k1 = k := by simpa [beq_iff_eq] using hk
        have hv : v1 = v := by simpa [lookupAssoc, List.find?, hk] using h
        subst hk'
        rw [← hv]
        exact List.mem_cons_self _ _
      · have h' : lookupAssoc t k = some v := by
          simpa [lookupAssoc, List.find?, hk] using h
        exact List.mem_cons_of_mem _ (ih h')

theorem lookupAssoc_of_mem_nodup {V : Type} {m : List (String × V)} {k : String} {v : V}
    (hnd : (m.map (fun e => e.1)).Nodup) (h : (k, v) ∈ m) :
    lookupAssoc m k = some v := by
  induction m with
  | nil => simp at h
  | cons kv t ih =>
      obtain ⟨k1, v1⟩ := kv
      rcases List.mem_cons.mp h with h | h
      · rw [show k = k1 from congrArg Prod.fst h,
          show v = v1 from congrArg Prod.snd h]
        simp [lookupAssoc, List.find?]
      · have hnd' : (t.map (fun e => e.1)).Nodup := (List.nodup_cons.mp hnd).2
        have hk : k1 ≠ k := by
          intro hk
          subst hk
          exact (List.nodup_cons.mp hnd).1 (List.mem_map.mpr ⟨(k1, v), h, rfl⟩)
        have hk' : (k1 == k) = false := by simpa [beq_iff_eq] using hk
        simpa [lookupAssoc, List.find?, hk'] using ih hnd' h

theorem lookupAssoc_isSome_of_mem_keys {V : Type} {m : List (String × V)} {k : String}
    (h : k ∈ m.map (fun e => e.1)) : ∃ v, lookupAssoc m k = some v := by
  induction m with
  | nil => simp at h
  | cons kv t ih =>
      rcases List.mem_map.mp h with ⟨e, he, hk⟩
      rcases List.mem_cons.mp he with he | he
      · subst he
        exact ⟨e.2, by simp [lookupAssoc, List.find?, hk]⟩
      · by_cases hh : kv.1 == k
        · exact ⟨kv.2, by simp [lookupAssoc, List.find?, hh]⟩
        · rcases ih (List.mem_map.mpr ⟨e, he, hk⟩) with ⟨v, hv⟩
          exact ⟨v, by simpa [lookupAssoc, List.find?, hh] using hv⟩

theorem findLicenseByCustomer_go_spec (kv : KV) (cid : String) (ks : List String)
    (hpre : ∀ k ∈ ks, strHasPrefix "license:" k = true)
    (hbind : ∀ k ∈ ks, ∃ d, kvGet kv k = some d) :
    (∀ name, findLicenseByCustomer.go kv cid ks = some name →
        ∃ k ∈ ks, ∃ d, kvGet kv k = some d ∧ d.customer_id = cid ∧
          k = "license:" ++ name) ∧
    (findLicenseByCustomer.go kv cid ks = none ↔
        ∀ k ∈ ks, ∀ d, kvGet kv k = some d → d.customer_id ≠ cid) := by
  induction ks with
  | nil => simp [findLicenseByCustomer.go]
  | cons k rest ih =>
      rcases hbind k (List.mem_cons_self _ _) with ⟨d, hd⟩
      have ihs := ih (fun k' hk' => hpre k' (List.mem_cons_of_mem _ hk'))
        (fun k' hk' => hbind k' (List.mem_cons_of_mem _ hk'))
      rcases strHasPrefix_iff "license:" k |>.mp (hpre k (List.mem_cons_self _ _)) with ⟨t, ht⟩
      have hstrip : removeFirst "license:" k = t := by
        rw [← ht]
        apply String.ext
        simp only [removeFirst]
        simpa using removeFirstChars_append "license:".data t.data (by decide)
      by_cases hc : d.customer_id == cid
      · have hc' : d.customer_id = cid := by simpa [beq_iff_eq] using hc
        constructor
        · intro name hname
          simp only [findLicenseByCustomer.go, hd, hc, if_true] at hname
          refine ⟨k, List.mem_cons_self _ _, d, hd, hc', ?_⟩
          rw [← ht]
          congr 1
          rw [← hstrip]
          exact Option.some_injective _ hname
        · constructor
          · intro hnone
            simp [findLicenseByCustomer.go, hd, hc] at hnone
          · intro hall
            exact absurd hc' (hall k (List.mem_cons_self _ _) d hd)
      · have hgo : findLicenseByCustomer.go kv cid (k :: rest) =
            findLicenseByCustomer.go kv cid rest := by
          simp [findLicenseByCustomer.go, hd, hc]
        constructor
        · intro name hname
          rw [hgo] at hname
          rcases ihs.1 name hname with ⟨k', hk', d', hd', hcid', hk's⟩
          exact ⟨k', List.mem_cons_of_mem _ hk', d', hd', hcid', hk's⟩
        · rw [hgo, ihs.2]
          constructor
          · intro hall k' hk' d' hd' hcid'
            rcases List.mem_cons.mp hk' with hk' | hk'
            · subst hk'
              rw [hd] at hd'
              have : d = d' := Option.some_injective _ hd'
              subst this
              exact absurd hcid' (by simpa [beq_iff_eq] using hc)
            · exact hall k' hk' d' hd' hcid'
          · intro hall k' hk' d' hd' hcid'
            exact hall k' (List.mem_cons_of_mem _ hk') d' hd' hcid'

/-- Claim C6: `findLicenseByCustomer` scans the "license:"-prefixed keys
linearly; a returned name is the prefix-stripped key of a stored record
whose `customer_id` equals the target, and the scan returns null exactly
when no record stored under the prefix has a matching `customer_id`. -/
theorem findLicenseByCustomer_spec (kv : KV) (cid : String) :
    (∀ name, findLicenseByCustomer kv cid = some name →
        ∃ d, kvGet kv ("license:" ++ name) = some d ∧ d.customer_id = cid) ∧
    (findLicenseByCustomer kv cid = none ↔
        ∀ k d, kvGet kv k = some d → strHasPrefix "license:" k = true →
          d.customer_id ≠ cid) := by
  have hpre : ∀ k ∈ kvListKeys kv "license:", strHasPrefix "license:" k = true := by
    intro k hk
    exact (List.mem_filter.mp hk).2
  have hbind : ∀ k ∈ kvListKeys kv "license:", ∃ d, kvGet kv k = some d := by
    intro k hk
    exact lookupAssoc_isSome_of_mem_keys (List.mem_filter.mp hk).1
  have hgo := findLicenseByCustomer_go_spec kv cid (kvListKeys kv "license:") hpre hbind
  constructor
  · intro name hname
    rcases hgo.1 name hname with ⟨k, _, d, hd, hcid, hk⟩
    exact ⟨d, hk ▸ hd, hcid⟩
  · rw [show findLicenseByCustomer kv cid =
        findLicenseByCustomer.go kv cid (kvListKeys kv "license:") from rfl, hgo.2]
    constructor
    · intro hall k d hd hp
      have hkmem : k ∈ kv.map (fun e => e.1) :=
        List.mem_map.mpr ⟨(k, d), lookupAssoc_mem hd, rfl⟩
      exact hall k (List.mem_filter.mpr ⟨hkmem, hp⟩) d hd
    · intro hall k hk d hd
      exact hall k d hd (List.mem_filter.mp hk).2

/-- Witness for `findLicenseByCustomer_spec` on a two-record store. -/
theorem findLicenseByCustomer_spec_witness :
    findLicenseByCustomer
        [("license:k1", ⟨"gg_pro_k1", "a@x.com", "cus_1", "sub_1", "active", "t0", "t0", none⟩),
         ("license:k2", ⟨"gg_pro_k2", "b@x.com", "cus_2", "sub_2", "active", "t0", "t0", none⟩)]
        "cus_3" = none := by
  have h := findLicenseByCustomer_spec
      [("license:k1", ⟨"gg_pro_k1", "a@x.com", "cus_1", "sub_1", "active", "t0", "t0", none⟩),
       ("license:k2", ⟨"gg_pro_k2", "b@x.com", "cus_2", "sub_2", "active", "t0", "t0", none⟩)]
      "cus_3"
  rw [h.2]
  intro k d hd hp
  have hm := lookupAssoc_mem hd
  simp only [List.mem_cons, List.not_mem_nil, or_false] at hm
  rcases hm with hm | hm
  · rw [show d = (⟨"gg_pro_k1", "a@x.com", "cus_1", "sub_1", "active", "t0", "t0", none⟩ : LicenseData)
        from congrArg Prod.snd hm]
    decide
  · rw [show d = (⟨"gg_pro_k2", "b@x.com", "cus_2", "sub_2", "active", "t0", "t0", none⟩ : LicenseData)
        from congrArg Prod.snd hm]
    decide

/-! ### C10: both indexes of a license are written with the same record
(src/backend/src/index.ts:207-291) -/

/-- `provisionLicense` (index.ts:207-231).  The email comes from
`session.metadata?.email || session.customer_email`; the generated license
key (`generateLicenseKey` uses `crypto.randomUUID`) and the ISO timestamp
are passed in explicitly. -/
def provisionLicense (kv : KV) (emailOpt : Option String)
    (customerId subscriptionId licenseKey nowISO : String) : KV :=
  match emailOpt with
  | none => kv
  | some email =>
      let d : LicenseData :=
        { license_key := licenseKey, email := email, customer_id := customerId,
          subscription_id := subscriptionId, status := "active",
          created_at := nowISO, updated_at := nowISO, revoked_at := none }
      kvPut (kvPut kv ("email:" ++ email) d) ("license:" ++ licenseKey) d

/-- `updateSubscriptionStatus` (index.ts:234-250). -/
def updateSubscriptionStatus (kv : KV) (customerId subStatus nowISO : String) : KV :=
  match findLicenseByCustomer kv customerId with
  | none => kv
  | some licenseKey =>
      match kvGet kv ("license:" ++ licenseKey) with
      | none => kv
      | some data =>
          let d := { data with
            status := (if subStatus == "active" then "active" else "inactive")
            updated_at := nowISO }
          kvPut (kvPut kv ("license:" ++ licenseKey) d) ("email:" ++ d.email) d

/-- `revokeLicense` (index.ts:253-271). -/
def revokeLicense (kv : KV) (customerId nowISO : String) : KV :=
  match findLicenseByCustomer kv customerId with
  | none => kv
  | some licenseKey =>
      match kvGet kv ("license:" ++ licenseKey) with
      | none => kv
      | some data =>
          let d := { data with
            status := "revoked"
            revoked_at := some nowISO
            updated_at := nowISO }
          kvPut (kvPut kv ("license:" ++ licenseKey) d) ("email:" ++ d.email) d

/-- `handlePaymentFailed` (index.ts:274-291). -/
def handlePaymentFailed (kv : KV) (customerId nowISO : String) : KV :=
  match findLicenseByCustomer kv customerId with
  | none => kv
  | some licenseKey =>
      match kvGet kv ("license:" ++ licenseKey) with
      | none => kv
      | some data =>
          let d := { data with status := "payment_failed", updated_at := nowISO }
          kvPut (kvPut kv ("license:" ++ licenseKey) d) ("email:" ++ d.email) d

theorem license_key_ne_email_key (x y : String) :
    ("license:" ++ x) ≠ ("email:" ++ y) := by
  intro h
  have h1 : ("license:" ++ x).data = ("email:" ++ y).data := congrArg String.data h
  rw [show ("license:" ++ x).data = 'l' :: ("icense:".data ++ x.data) from rfl,
    show ("email:" ++ y).data = 'e' :: ("mail:".data ++ y.data) from rfl] at h1
  injection h1 with hc _
  exact absurd hc (by decide)

theorem mirror_after_double_put (kv : KV) (x y : String) (d : LicenseData) :
    kvGet (kvPut (kvPut kv ("email:" ++ y) d) ("license:" ++ x) d) ("license:" ++ x) = some d ∧
    kvGet (kvPut (kvPut kv ("email:" ++ y) d) ("license:" ++ x) d) ("email:" ++ y) = some d := by
  constructor
  · exact lookupAssoc_putAssoc_same _ _ _
  · rw [kvGet, kvPut,
      lookupAssoc_putAssoc_other _ _ _ _ (license_key_ne_email_key x y).symm]
    exact lookupAssoc_putAssoc_same _ _ _

theorem mirror_after_double_put' (kv : KV) (x y : String) (d : LicenseData) :
    kvGet (kvPut (kvPut kv ("license:" ++ x) d) ("email:" ++ y) d) ("license:" ++ x) = some d ∧
    kvGet (kvPut (kvPut kv ("license:" ++ x) d) ("email:" ++ y) d) ("email:" ++ y) = some d := by
  constructor
  · rw [kvGet, kvPut,
      lookupAssoc_putAssoc_other _ _ _ _ (license_key_ne_email_key x y)]
    exact lookupAssoc_putAssoc_same _ _ _
  · exact lookupAssoc_putAssoc_same _ _ _

/-- Claim C10: after each webhook-driven operation completes its writes, the
record stored under `email:<email>` equals the record stored under
`license:<license_key>` for the affected license — both keys are written
with the same serialized data. -/
theorem webhook_ops_mirror_indexes (kv : KV) :
    (∀ email customerId subscriptionId licenseKey nowISO,
      ∃ d : LicenseData,
        kvGet (provisionLicense kv (some email) customerId subscriptionId licenseKey nowISO)
            ("license:" ++ licenseKey) = some d ∧
        kvGet (provisionLicense kv (some email) customerId subscriptionId licenseKey nowISO)
            ("email:" ++ email) = some d) ∧
    (∀ customerId subStatus nowISO licenseKey data,
      findLicenseByCustomer kv customerId = some licenseKey →
      kvGet kv ("license:" ++ licenseKey) = some data →
      ∃ d : LicenseData,
        kvGet (updateSubscriptionStatus kv customerId subStatus nowISO)
            ("license:" ++ licenseKey) = some d ∧
        kvGet (updateSubscriptionStatus kv customerId subStatus nowISO)
            ("email:" ++ d.email) = some d) ∧
    (∀ customerId nowISO licenseKey data,
      findLicenseByCustomer kv customerId = some licenseKey →
      kvGet kv ("license:" ++ licenseKey) = some data →
      ∃ d : LicenseData,
        kvGet (revokeLicense kv customerId nowISO) ("license:" ++ licenseKey) = some d ∧
        kvGet (revokeLicense kv customerId nowISO) ("email:" ++ d.email) = some d) ∧
    (∀ customerId nowISO licenseKey data,
      findLicenseByCustomer kv customerId = some licenseKey →
      kvGet kv ("license:" ++ licenseKey) = some data →
      ∃ d : LicenseData,
        kvGet (handlePaymentFailed kv customerId nowISO) ("license:" ++ licenseKey) = some d ∧
        kvGet (handlePaymentFailed kv customerId nowISO) ("email:" ++ d.email) = some d) := by
  refine ⟨?_, ?_, ?_, ?_⟩
  · intro email customerId subscriptionId licenseKey nowISO
    have h := mirror_after_double_put kv licenseKey email
      { license_key := licenseKey, email := email, customer_id := customerId,
        subscription_id := subscriptionId, status := "active",
        created_at := nowISO, updated_at := nowISO, revoked_at := none }
    exact ⟨_, h.1, h.2⟩
  · intro customerId subStatus nowISO licenseKey data hfind hget
    have h := mirror_after_double_put' kv licenseKey data.email
      { data with
        status := (if subStatus == "active" then "active" else "inactive")
        updated_at := nowISO }
    simp only [updateSubscriptionStatus, hfind, hget]
    exact ⟨_, h.1, h.2⟩
  · intro customerId nowISO licenseKey data hfind hget
    have h := mirror_after_double_put' kv licenseKey data.email
      { data with
        status := "revoked"
        revoked_at := some nowISO
        updated_at := nowISO }
    simp only [revokeLicense, hfind, hget]
    exact ⟨_, h.1, h.2⟩
  · intro customerId nowISO licenseKey data hfind hget
    have h := mirror_after_double_put' kv licenseKey data.email
      { data with status := "payment_failed", updated_at := nowISO }
    simp only [handlePaymentFailed, hfind, hget]
    exact ⟨_, h.1, h.2⟩

/-- Witness for `webhook_ops_mirror_indexes`: revoke the license of a
concrete one-record store and read both indexes back. -/
theorem webhook_ops_mirror_indexes_witness :
    ∃ d : LicenseData,
      kvGet (revokeLicense
          [("license:k1", ⟨"gg_pro_k1", "a@x.com", "cus_1", "sub_1", "active", "t0", "t0", none⟩)]
          "cus_1" "t1") ("license:" ++ "k1") = some d ∧
      kvGet (revokeLicense
          [("license:k1", ⟨"gg_pro_k1", "a@x.com", "cus_1", "sub_1", "active", "t0", "t0", none⟩)]
          "cus_1" "t1") ("email:" ++ d.email) = some d :=
  (webhook_ops_mirror_indexes
      [("license:k1", ⟨"gg_pro_k1", "a@x.com", "cus_1", "sub_1", "active", "t0", "t0", none⟩)]).2.2.1
    "cus_1" "t1" "k1" ⟨"gg_pro_k1", "a@x.com", "cus_1", "sub_1", "active", "t0", "t0", none⟩
    (by decide) (by decide)

/-! ### C9: `generateLicenseKey` versus `isValidLicenseFormat`
(src/backend/src/index.ts:21-35) -/

/-- `generateLicenseKey` (index.ts:21-30).  The 16-hex-char value produced
by `crypto.randomUUID()` with dashes removed and sliced to 16 characters is
passed in as `random`; the signing key is accepted and never used, as in the
source.
`charCodeAt` agrees with `Char.toNat` on the code points involved.  The
checksum is `sum.toString(16).slice(-8)`: the last (at most) eight digits
of the hex expansion, with no left padding. -/
def generateLicenseKey (email signingKey random : String) : String :=
  let data := email ++ ":" ++ random
  let sumCodes := (data.data.map (fun c => c.toNat)).sum
  let hex := Nat.toDigits 16 sumCodes
  let checksum := String.mk (hex.drop (hex.length - 8))
  "gg_pro_" ++ random ++ "_" ++ checksum

def isLowerHexDigit (c : Char) : Bool :=
  (('0' ≤ c) && (c ≤ '9')) || (('a' ≤ c) && (c ≤ 'f'))

/-- `isValidLicenseFormat` (index.ts:33-35): the anchored regular
expression `^gg_pro_[a-f0-9]{16}_[a-f0-9]{8}$`, checked structurally. -/
def isValidLicenseFormat (key : String) : Bool :=
  let cs := key.data
  "gg_pro_".data.isPrefixOf cs &&
    (let r := cs.drop 7
     (r.length == 25 && (r.take 16).all isLowerHexDigit) &&
       (match r.drop 16 with
        | '_' :: tl => tl.all isLowerHexDigit
        | _ => false))

/-- Claim C9 is contradicted by the code: at the ordinary input email
"a@b.com" (with a concrete 16-hex-char random part), the character-code sum
is 1804 = 0x70c, whose hex expansion has only three digits, so the
generated key's checksum segment has length three and the backend's own
format check rejects the key.  A key with a full eight-digit checksum
segment would pass, so the failure is the missing left padding in
`generateLicenseKey`, not the format check. -/
theorem generateLicenseKey_fails_own_format :
    generateLicenseKey "a@b.com" "sign" "0123456789abcdef" =
        "gg_pro_0123456789abcdef_70c" ∧
    isValidLicenseFormat (generateLicenseKey "a@b.com" "sign" "0123456789abcdef") = false ∧
    isValidLicenseFormat "gg_pro_0123456789abcdef_0000070c" = true := by
  refine ⟨by decide, by decide, by decide⟩

/-! ### C5: the npm lookup cache is file-per-key (src/main.go:1601-1675)

The file system is an association list from paths to contents; the npm
registry is a function from URLs to responses; JSON decoding and encoding
of the package payload are passed in as parameters (`encoding/json` is an
external collaborator). -/

abbrev FS := List (String × String)

def fsRead (fs : FS) (p : String) : Option String := lookupAssoc fs p

def fsWrite (fs : FS) (p v : String) : FS := putAssoc fs p v

inductive HTTPResp where
  | netErr
  | resp (status : Nat) (body : String)

/-- What `handleNPM` does with a package after the argument check. -/
inductive NPMResult (J : Type) where
  | cacheHit (data : Option J)
  | fetchErr
  | notFound
  | registryErr (code : Nat)
  | parseErr
  | fetched (data : J)

def npmCachePath (pkg : String) : String := "cache/npm/" ++ pkg ++ ".json"

def npmRegistryURL (pkg : String) : String :=
  "https://registry.npmjs.org/" ++ pkg ++ "/latest"

/-- `handleNPM` (src/main.go:1601-1675): read `<pkg>.json` from the npm
cache directory; on success use it (a failed `json.Unmarshal` is ignored,
hence the `Option J`); otherwise fetch `/latest` from the registry, return
early on network error, 404 or non-200 status, and on a decoded 200
response write the re-marshalled payload to the same cache file. -/
def handleNPM {J : Type} (decode : String → Option J) (encode : J → String)
    (registry : String → HTTPResp) (fs : FS) (pkg : String) :
    NPMResult J × FS :=
  match fsRead fs (npmCachePath pkg) with
  | some data => (.cacheHit (decode data), fs)
  | none =>
      match registry (npmRegistryURL pkg) with
      | .netErr => (.fetchErr, fs)
      | .resp status body =>
          if status == 404 then (.notFound, fs)
          else if status != 200 then (.registryErr status, fs)
          else
            match decode body with
            | none => (.parseErr, fs)
            | some j => (.fetched j, fsWrite fs (npmCachePath pkg) (encode j))

/-- Claim C5: if `<pkg>.json` exists in the npm cache directory, `handleNPM`
uses its content without any HTTP request and leaves the file system
unchanged; otherwise it fetches the registry and, on a decoded 200
response, writes the parsed payload to exactly that file, so a second
invocation for the same package is a cache hit that performs no fetch. -/
theorem handleNPM_cache_behaviour {J : Type} (decode : String → Option J)
    (encode : J → String) (registry : String → HTTPResp) (fs : FS) (pkg : String) :
    (∀ data, fsRead fs (npmCachePath pkg) = some data →
        handleNPM decode encode registry fs pkg = (.cacheHit (decode data), fs)) ∧
    (∀ body j, fsRead fs (npmCachePath pkg) = none →
        registry (npmRegistryURL pkg) = .resp 200 body →
        decode body = some j →
        handleNPM decode encode registry fs pkg =
            (.fetched j, fsWrite fs (npmCachePath pkg) (encode j)) ∧
          fsRead (fsWrite fs (npmCachePath pkg) (encode j)) (npmCachePath pkg) =
            some (encode j) ∧
          handleNPM decode encode registry
              (fsWrite fs (npmCachePath pkg) (encode j)) pkg =
            (.cacheHit (decode (encode j)),
              fsWrite fs (npmCachePath pkg) (encode j))) := by
  constructor
  · intro data hdata
    simp [handleNPM, hdata]
  · intro body j hmiss hresp hdec
    have hread : fsRead (fsWrite fs (npmCachePath pkg) (encode j)) (npmCachePath pkg) =
        some (encode j) := lookupAssoc_putAssoc_same _ _ _
    refine ⟨?_, hread, ?_⟩
    · simp [handleNPM, hmiss, hresp, hdec]
    · simp [handleNPM, hread]

/-- Witness for `handleNPM_cache_behaviour`: a concrete miss-then-hit run
with the identity codec and a registry that answers 200. -/
theorem handleNPM_cache_behaviour_witness :
    handleNPM (fun s => some s) (fun s => s)
        (fun _ => .resp 200 "payload") [] "lodash" =
      (.fetched "payload", fsWrite [] (npmCachePath "lodash") "payload") ∧
    handleNPM (fun s => some s) (fun s => s)
        (fun _ => .resp 200 "payload")
        (fsWrite [] (npmCachePath "lodash") "payload") "lodash" =
      (.cacheHit (some "payload"), fsWrite [] (npmCachePath "lodash") "payload") := by
  have h := (handleNPM_cache_behaviour (fun s => some s) (fun s => s)
      (fun _ => .resp 200 "payload") [] "lodash").2 "payload" "payload"
      (by decide) rfl rfl
  exact ⟨h.1, h.2.2⟩

/-! ### C7: saved chains round-trip (src/main.go:1895-1913, 2016-2053)

`saveChain` writes `json.Marshal(tools)` for a `[]string`; `loadChain`
reads the file back through `json.Unmarshal`.  The encoder below follows
`encoding/json` for string slices (quote, backslash and control escapes,
HTML-escaping of angle brackets and ampersands, and the U+2028 and U+2029
escapes); the decoder handles exactly the JSON shapes the encoder can emit,
which is all the round-trip theorem needs. -/

def escChar (c : Char) : List Char :=
  if c = '"' then ['\\', '"']
  else if c = '\\' then ['\\', '\\']
  else if c = '\n' then ['\\', 'n']
  else if c = '\r' then ['\\', 'r']
  else if c = '\t' then ['\\', 't']
  else if c.toNat < 32 then
    ['\\', 'u', '0', '0', Nat.digitChar (c.toNat / 16), Nat.digitChar (c.toNat % 16)]
  else if c = '<' then ['\\', 'u', '0', '0', '3', 'c']
  else if c = '>' then ['\\', 'u', '0', '0', '3', 'e']
  else if c = '&' then ['\\', 'u', '0', '0', '2', '6']
  else if c.toNat = 0x2028 then ['\\', 'u', '2', '0', '2', '8']
  else if c.toNat = 0x2029 then ['\\', 'u', '2', '0', '2', '9']
  else [c]

def encBody (cs : List Char) : List Char := cs.flatMap escChar

def encodeString (s : String) : List Char := '"' :: (encBody s.data ++ ['"'])

def encTail (ss : List String) : List Char :=
  ss.flatMap (fun s => ',' :: encodeString s)

/-- `json.Marshal` of a `[]string`. -/
def encodeTools : List String → List Char
  | [] => ['[', ']']
  | t :: rest => '[' :: (encodeString t ++ (encTail rest ++ [']']))

def hexVal (c : Char) : Option Nat :=
  if ('0' ≤ c) && (c ≤ '9') then some (c.toNat - 48)
  else if ('a' ≤ c) && (c ≤ 'f') then some (c.toNat - 87)
  else if ('A' ≤ c) && (c ≤ 'F') then some (c.toNat - 55)
  else none

def escDecode (e : Char) : Option Char :=
  if e = '"' then some '"'
  else if e = '\\' then some '\\'
  else if e = '/' then some '/'
  else if e = 'n' then some '\n'
  else if e = 'r' then some '\r'
  else if e = 't' then some '\t'
  else if e = 'b' then some (Char.ofNat 8)
  else if e = 'f' then some (Char.ofNat 12)
  else none

/-- Parse a JSON string body after its opening quote, returning the decoded
characters and the input after the closing quote. -/
def parseStrAux : List Char → Option (List Char × List Char)
  | [] => none
  | c :: r =>
      if c = '"' then some ([], r)
      else if c = '\\' then
        match r with
        | [] => none
        | e :: r2 =>
            if e = 'u' then
              match r2 with
              | h1 :: h2 :: h3 :: h4 :: r3 =>
                  match hexVal h1, hexVal h2, hexVal h3, hexVal h4, parseStrAux r3 with
                  | some a, some b, some cc, some d, some (cs, rest) =>
                      some (Char.ofNat (((a * 16 + b) * 16 + cc) * 16 + d) :: cs, rest)
                  | _, _, _, _, _ => none
              | _ => none
            else
              match escDecode e, parseStrAux r2 with
              | some ch, some (cs, rest) => some (ch :: cs, rest)
              | _, _ => none
      else
        match parseStrAux r with
        | some (cs, rest) => some (c :: cs, rest)
        | none => none

def parseOneString : List Char → Option (String × List Char)
  | [] => none
  | c :: r =>
      if c = '"' then (parseStrAux r).map (fun p => (String.mk p.1, p.2))
      else none

def parseRest : Nat → List Char → Option (List String × List Char)
  | fuel, s =>
      match s with
      | [] => none
      | c :: r =>
          if c = ']' then some ([], r)
          else if c = ',' then
            match fuel with
            | 0 => none
            | fuel + 1 =>
                match parseOneString r with
                | none => none
                | some (s1, r1) =>
                    match parseRest fuel r1 with
                    | some (ss, r2) => some (s1 :: ss, r2)
                    | none => none
          else none

/-- `json.Unmarshal` into a `[]string`, on the output shapes of
`encodeTools`. -/
def parseTools (cs : List Char) : Option (List String) :=
  match cs with
  | [] => none
  | c :: r =>
      if c = '[' then
        match r with
        | [] => none
        | c2 :: r2 =>
            if c2 = ']' then (if r2.isEmpty then some [] else none)
            else
              match parseOneString (c2 :: r2) with
              | none => none
              | some (s1, r1) =>
                  match parseRest r1.length r1 with
                  | some (ss, r2') => if r2'.isEmpty then some (s1 :: ss) else none
                  | none => none
      else none

theorem hexVal_digitChar (m : Nat) (hm : m < 16) :
    hexVal (Nat.digitChar m) = some m := by
  interval_cases m <;> decide

theorem parseStrAux_quote (rest : List Char) :
    parseStrAux ('"' :: rest) = some ([], rest) := by
  rw [parseStrAux.eq_def]
  simp

theorem parseStrAux_esc (e ch : Char) (X : List Char) (he : e ≠ 'u')
    (hd : escDecode e = some ch) :
    parseStrAux ('\\' :: e :: X) = (parseStrAux X).map (fun p => (ch :: p.1, p.2)) := by
  rw [parseStrAux.eq_def]
  rcases hX : parseStrAux X with _ | ⟨cs, rest⟩ <;> simp [he, hd, hX]

theorem parseStrAux_u (h1 h2 h3 h4 : Char) (a b cc d : Nat) (X : List Char)
    (e1 : hexVal h1 = some a) (e2 : hexVal h2 = some b)
    (e3 : hexVal h3 = some cc) (e4 : hexVal h4 = some d) :
    parseStrAux ('\\' :: 'u' :: h1 :: h2 :: h3 :: h4 :: X) =
      (parseStrAux X).map
        (fun p => (Char.ofNat (((a * 16 + b) * 16 + cc) * 16 + d) :: p.1, p.2)) := by
  rw [parseStrAux.eq_def]
  rcases hX : parseStrAux X with _ | ⟨cs, rest⟩ <;> simp [e1, e2, e3, e4, hX]

theorem parseStrAux_plain (c : Char) (X : List Char) (h1 : c ≠ '"') (h2 : c ≠ '\\') :
    parseStrAux (c :: X) = (parseStrAux X).map (fun p => (c :: p.1, p.2)) := by
  rw [parseStrAux.eq_def]
  rcases hX : parseStrAux X with _ | ⟨cs, rest⟩ <;> simp [h1, h2, hX]

theorem parseStrAux_encBody (cs rest : List Char) :
    parseStrAux (encBody cs ++ '"' :: rest) = some (cs, rest) := by
  induction cs with
  | nil => simpa [encBody] using parseStrAux_quote rest
  | cons c t ih =>
      have hbody : encBody (c :: t) = escChar c ++ encBody t := by
        simp [encBody]
      rw [hbody, List.append_assoc]
      by_cases h1 : c = '"'
      · subst h1
        rw [show escChar '"' = ['\\', '"'] from by decide]
        simp only [List.cons_append, List.nil_append]
        rw [parseStrAux_esc '"' '"' _ (by decide) (by decide), ih]
        rfl
      by_cases h2 : c = '\\'
      · subst h2
        rw [show escChar '\\' = ['\\', '\\'] from by decide]
        simp only [List.cons_append, List.nil_append]
        rw [parseStrAux_esc '\\' '\\' _ (by decide) (by decide), ih]
        rfl
      by_cases h3 : c = '\n'
      · subst h3
        rw [show escChar '\n' = ['\\', 'n'] from by decide]
        simp only [List.cons_append, List.nil_append]
        rw [parseStrAux_esc 'n' '\n' _ (by decide) (by decide), ih]
        rfl
      by_cases h4 : c = '\r'
      · subst h4
        rw [show escChar '\r' = ['\\', 'r'] from by decide]
        simp only [List.cons_append, List.nil_append]
        rw [parseStrAux_esc 'r' '\r' _ (by decide) (by decide), ih]
        rfl
      by_cases h5 : c = '\t'
      · subst h5
        rw [show escChar '\t' = ['\\', 't'] from by decide]
        simp only [List.cons_append, List.nil_append]
        rw [parseStrAux_esc 't' '\t' _ (by decide) (by decide), ih]
        rfl
      by_cases h6 : c.toNat < 32
      · have hesc : escChar c =
            ['\\', 'u', '0', '0', Nat.digitChar (c.toNat / 16), Nat.digitChar (c.toNat % 16)] := by
          simp [escChar, h1, h2, h3, h4, h5, h6]
        have hdiv : c.toNat / 16 < 16 := by omega
        have hmod : c.toNat % 16 < 16 := Nat.mod_lt _ (by omega)
        rw [hesc]
        simp only [List.cons_append, List.nil_append]
        rw [parseStrAux_u '0' '0' (Nat.digitChar (c.toNat / 16)) (Nat.digitChar (c.toNat % 16))
            0 0 (c.toNat / 16) (c.toNat % 16) _ (by decide) (by decide)
            (hexVal_digitChar _ hdiv) (hexVal_digitChar _ hmod), ih]
        have hval : ((0 * 16 + 0) * 16 + c.toNat / 16) * 16 + c.toNat % 16 = c.toNat := by
          omega
        simp [hval]
        have hval2 : c.toNat / 16 * 16 + c.toNat % 16 = c.toNat := by omega
        rw [hval2, Char.ofNat_toNat]
      by_cases h7 : c = '<'
      · subst h7
        rw [show escChar '<' = ['\\', 'u', '0', '0', '3', 'c'] from by decide]
        simp only [List.cons_append, List.nil_append]
        rw [parseStrAux_u '0' '0' '3' 'c' 0 0 3 12 _ (by decide) (by decide) (by decide)
            (by decide), ih]
        rw [show Char.ofNat (((0 * 16 + 0) * 16 + 3) * 16 + 12) = '<' from by decide]
        rfl
      by_cases h8 : c = '>'
      · subst h8
        rw [show escChar '>' = ['\\', 'u', '0', '0', '3', 'e'] from by decide]
        simp only [List.cons_append, List.nil_append]
        rw [parseStrAux_u '0' '0' '3' 'e' 0 0 3 14 _ (by decide) (by decide) (by decide)
            (by decide), ih]
        rw [show Char.ofNat (((0 * 16 + 0) * 16 + 3) * 16 + 14) = '>' from by decide]
        rfl
      by_cases h9 : c = '&'
      · subst h9
        rw [show escChar '&' = ['\\', 'u', '0', '0', '2', '6'] from by decide]
        simp only [List.cons_append, List.nil_append]
        rw [parseStrAux_u '0' '0' '2' '6' 0 0 2 6 _ (by decide) (by decide) (by decide)
            (by decide), ih]
        rw [show Char.ofNat (((0 * 16 + 0) * 16 + 2) * 16 + 6) = '&' from by decide]
        rfl
      by_cases h10 : c.toNat = 0x2028
      · have hesc : escChar c = ['\\', 'u', '2', '0', '2', '8'] := by
          simp [escChar, h1, h2, h3, h4, h5, h6, h7, h8, h9, h10]
        have hc : c = Char.ofNat 0x2028 := by
          rw [← h10, Char.ofNat_toNat]
        rw [hesc]
        simp only [List.cons_append, List.nil_append]
        rw [parseStrAux_u '2' '0' '2' '8' 2 0 2 8 _ (by decide) (by decide) (by decide)
            (by decide), ih]
        rw [show Char.ofNat (((2 * 16 + 0) * 16 + 2) * 16 + 8) = Char.ofNat 0x2028 from by
          decide]
        rw [← hc]
        rfl
      by_cases h11 : c.toNat = 0x2029
      · have hesc : escChar c = ['\\', 'u', '2', '0', '2', '9'] := by
          simp [escChar, h1, h2, h3, h4, h5, h6, h7, h8, h9, h10, h11]
        have hc : c = Char.ofNat 0x2029 := by
          rw [← h11, Char.ofNat_toNat]
        rw [hesc]
        simp only [List.cons_append, List.nil_append]
        rw [parseStrAux_u '2' '0' '2' '9' 2 0 2 9 _ (by decide) (by decide) (by decide)
            (by decide), ih]
        rw [show Char.ofNat (((2 * 16 + 0) * 16 + 2) * 16 + 9) = Char.ofNat 0x2029 from by
          decide]
        rw [← hc]
        rfl
      · have hesc : escChar c = [c] := by
          simp [escChar, h1, h2, h3, h4, h5, h6, h7, h8, h9, h10, h11]
        rw [hesc]
        simp only [List.cons_append, List.nil_append]
        rw [parseStrAux_plain c _ h1 h2, ih]
        rfl

theorem parseOneString_enc (s : String) (rest : List Char) :
    parseOneString (encodeString s ++ rest) = some (s, rest) := by
  rw [encodeString]
  rw [show ('"' :: (encBody s.data ++ ['"'])) ++ rest =
      '"' :: (encBody s.data ++ '"' :: rest) from by simp]
  rw [show parseOneString ('"' :: (encBody s.data ++ '"' :: rest)) =
      (parseStrAux (encBody s.data ++ '"' :: rest)).map (fun p => (String.mk p.1, p.2))
      from by rw [parseOneString.eq_def]; simp]
  rw [parseStrAux_encBody]
  cases s
  rfl

theorem parseRest_enc (ss : List String) : ∀ fuel, (encTail ss).length ≤ fuel →
    parseRest fuel (encTail ss ++ [']']) = some (ss, []) := by
  induction ss with
  | nil =>
      intro fuel _
      simp only [encTail, List.flatMap_nil, List.nil_append]
      rw [parseRest.eq_def]
      simp
  | cons s t ih =>
      intro fuel hfuel
      have htail : encTail (s :: t) = ',' :: (encodeString s ++ encTail t) := by
        simp [encTail]
      rw [htail] at hfuel ⊢
      match fuel, hfuel with
      | fuel + 1, hfuel =>
          have hlen : (encTail t).length ≤ fuel := by
            have := List.length_append (encodeString s) (encTail t)
            simp only [List.length_cons, this] at hfuel
            have hpos : 0 < (encodeString s).length := by
              simp [encodeString]
            omega
          rw [show (',' :: (encodeString s ++ encTail t)) ++ [']'] =
              ',' :: (encodeString s ++ (encTail t ++ [']'])) from by simp]
          rw [parseRest.eq_def]
          simp [parseOneString_enc s (encTail t ++ [']']), ih fuel hlen]

/-- Claim C7 (codec part): decoding the encoded tool list gives the list
back. -/
theorem parseTools_encodeTools (ts : List String) :
    parseTools (encodeTools ts) = some ts := by
  cases ts with
  | nil => decide
  | cons t rest =>
      rw [encodeTools]
      rw [show parseTools ('[' :: (encodeString t ++ (encTail rest ++ [']']))) =
          (match parseOneString (encodeString t ++ (encTail rest ++ [']'])) with
            | none => none
            | some (s1, r1) =>
                match parseRest r1.length r1 with
                | some (ss, r2') => if r2'.isEmpty then some (s1 :: ss) else none
                | none => none) from ?_
        ]
      · rw [parseOneString_enc]
        simp only [parseRest_enc rest ((encTail rest ++ [']']).length) (by simp)]
        rfl
      · have hcons : encodeString t ++ (encTail rest ++ [']']) =
            '"' :: (encBody t.data ++ ['"'] ++ (encTail rest ++ [']'])) := by
          simp [encodeString]
        rw [hcons]
        simp [parseTools]

def chainPath (name : String) : String := "chains/" ++ name ++ ".json"

/-- `saveChain` (src/main.go:1895-1901): marshal the tool list and write it
to `chains/<name>.json`. -/
def saveChain (fs : FS) (name : String) (tools : List String) : FS :=
  fsWrite fs (chainPath name) (String.mk (encodeTools tools))

/-- `loadChain` (src/main.go:1903-1913): read `chains/<name>.json`; return
nil (`none`) when the read or the unmarshal fails. -/
def loadChain (fs : FS) (name : String) : Option (List String) :=
  match fsRead fs (chainPath name) with
  | none => none
  | some data =>
      match parseTools data.data with
      | some ts => some ts
      | none => none

/-- One step of `runChain`'s loop (src/main.go:2026-2047): split the tool at
the first colon (`strings.SplitN(tool, ":", 2)`); no colon is reported as
invalid, known types dispatch to the npm and brew checks, anything else is
an unknown type. -/
inductive ChainStep where
  | npmCheck (name : String)
  | brewCheck (name : String)
  | invalid (tool : String)
  | unknownType (ty name : String)
  deriving DecidableEq

def splitFirstColon : List Char → Option (List Char × List Char)
  | [] => none
  | c :: t =>
      if c = ':' then some ([], t)
      else (splitFirstColon t).map (fun p => (c :: p.1, p.2))

def chainStepOf (tool : String) : ChainStep :=
  match splitFirstColon tool.data with
  | none => .invalid tool
  | some (ty, nm) =>
      if String.mk ty = "npm" then .npmCheck (String.mk nm)
      else if String.mk ty = "brew" then .brewCheck (String.mk nm)
      else .unknownType (String.mk ty) (String.mk nm)

/-- `runChain` (src/main.go:2016-2053): load the chain (`none` prints
"Chain not found") and execute its tools in order. -/
def runChain (fs : FS) (name : String) : Option (List ChainStep) :=
  (loadChain fs name).map (fun tools => tools.map chainStepOf)

/-- Claim C7: for every chain name and tool list, `loadChain` after
`saveChain` returns exactly the saved list (same elements, same order), and
`gg chain run <name>` replays the tools of that list in the saved order. -/
theorem chain_roundtrip (fs : FS) (name : String) (tools : List String) :
    loadChain (saveChain fs name tools) name = some tools ∧
    runChain (saveChain fs name tools) name = some (tools.map chainStepOf) := by
  have hread : fsRead (fsWrite fs (chainPath name) (String.mk (encodeTools tools)))
      (chainPath name) = some (String.mk (encodeTools tools)) :=
    lookupAssoc_putAssoc_same _ _ _
  have hload : loadChain (saveChain fs name tools) name = some tools := by
    simp only [loadChain, saveChain, hread, parseTools_encodeTools]
  exact ⟨hload, by rw [runChain, hload]; rfl⟩

/-- Kernel evaluation of the codec on a concrete chain, exercising the
escape paths. -/
theorem parseTools_encodeTools_sample :
    parseTools (encodeTools ["npm:lodash", "brew:jq", "a\"b\\c<d"]) =
      some ["npm:lodash", "brew:jq", "a\"b\\c<d"] := by
  decide

/-! ### C1: `parseCodeBlocks` (src/main.go:1011-1027)

`parseCodeBlocks` runs `FindAllStringSubmatch` for the Go regular
expression with pattern backtick-backtick-backtick `[a-z]*:([^\n]+)\n`
followed by a lazy any-character group and a closing backtick triple.
Go regexp has leftmost-first semantics, so a match is found as follows:

* the match starts at the leftmost position carrying a fence (a backtick
  triple) followed by a possibly-empty maximal run of lowercase letters, a
  colon, and a non-empty rest-of-line terminated by a newline (shorter
  lowercase or path runs cannot satisfy the regex, because backtracking a
  greedy class run by one character puts a character of that same class
  where the following literal is expected);
* the lazy group then matches up to the first backtick triple after the
  fence line; if there is none, no later start position can complete a
  match either (a later successful match would contain a backtick triple
  after this fence line, which would have completed this match), so the
  whole search stops.

Matches are non-overlapping: the search resumes after the closing triple.
The loop body stores `TrimSpace(match[1]) ↦ match[2]` into a map, so a
later block with the same path overwrites an earlier one. -/

/-- The backtick character (U+0060). -/
def btick : Char := Char.ofNat 96

/-- A backtick triple. -/
def fenceChars : List Char := [btick, btick, btick]

def isLowerAlpha (c : Char) : Bool := ('a' ≤ c) && (c ≤ 'z')

def containsSub (pat : List Char) : List Char → Bool
  | [] => pat.isEmpty
  | c :: t => pat.isPrefixOf (c :: t) || containsSub pat t

/-- Go `unicode.IsSpace` on the whitespace characters `strings.TrimSpace`
can meet in a path captured by `[^\n]+` (ASCII whitespace, NEL and NBSP;
the remaining Unicode space code points are handled identically and never
appear in the concrete inputs below). -/
def isSpaceGo (c : Char) : Bool :=
  c = ' ' || c = '\t' || c = '\n' || c = Char.ofNat 11 || c = Char.ofNat 12 ||
    c = '\r' || c = Char.ofNat 0x85 || c = Char.ofNat 0xA0

def trimChars (s : List Char) : List Char :=
  ((s.dropWhile isSpaceGo).reverse.dropWhile isSpaceGo).reverse

/-- `strings.TrimSpace`. -/
def trimString (s : String) : String := String.mk (trimChars s.data)

/-- Attempt to match the fence-line part of the pattern at the head of the
input: a backtick triple, a maximal lowercase run, a colon, a non-empty
path running to the end of the line, and the terminating newline.  Returns
the path capture and the input after the newline. -/
def tryOpen (s : List Char) : Option (List Char × List Char) :=
  if fenceChars.isPrefixOf s then
    match (s.drop 3).dropWhile isLowerAlpha with
    | ':' :: r3 =>
        let path := r3.takeWhile (fun c => c != '\n')
        if path.isEmpty then none
        else
          match r3.dropWhile (fun c => c != '\n') with
          | '\n' :: r5 => some (path, r5)
          | _ => none
    | _ => none
  else none

/-- Leftmost position where `tryOpen` succeeds. -/
def findOpen : List Char → Option (List Char × List Char)
  | [] => none
  | c :: t =>
      match tryOpen (c :: t) with
      | some r => some r
      | none => findOpen t

/-- Split at the first backtick triple: the lazy group capture and the
input after the closing triple. -/
def splitAtFence : List Char → Option (List Char × List Char)
  | [] => none
  | c :: t =>
      if fenceChars.isPrefixOf (c :: t) then some ([], (c :: t).drop 3)
      else (splitAtFence t).map (fun p => (c :: p.1, p.2))

/-- All successive non-overlapping leftmost matches, as (path capture,
content capture) pairs.  The fuel argument only bounds the recursion; each
match consumes at least one character, so `length` fuel is enough. -/
def scanBlocksF : Nat → List Char → List (List Char × List Char)
  | 0, _ => []
  | fuel + 1, s =>
      match findOpen s with
      | none => []
      | some (path, rest) =>
          match splitAtFence rest with
          | none => []
          | some (content, rest2) => (path, content) :: scanBlocksF fuel rest2

/-- `parseCodeBlocks` (src/main.go:1011-1027): collect the matches and fold
them into the `files` map, trimming each path; a later entry for the same
path overwrites an earlier one. -/
def parseCodeBlocks (response : String) : List (String × String) :=
  (scanBlocksF response.data.length response.data).foldl
    (fun files pc => putAssoc files (trimString (String.mk pc.1)) (String.mk pc.2)) []

/-! The claim's own description of the function, formalised from its words:
fenced code blocks are delimited by fence lines (lines beginning with a
backtick triple); an opening fence labelled `language:path` (language a
possibly-empty lowercase run, path the rest of the line) starts a labelled
block, any other fence line starts an unlabelled one; a block is closed by
the next fence line; labelled closed blocks contribute trimmed-path ↦
content entries (later blocks win), unlabelled blocks and text outside
fences contribute nothing. -/

def splitOnNl : List Char → List (List Char)
  | [] => [[]]
  | c :: t =>
      if c = '\n' then [] :: splitOnNl t
      else
        match splitOnNl t with
        | [] => [[c]]
        | l :: ls => (c :: l) :: ls

/-- Classify a line: `none` for an ordinary line, `some none` for an
unlabelled fence line, `some (some path)` for a fence line carrying a
`language:path` label. -/
def lineFenceLabel (line : List Char) : Option (Option (List Char)) :=
  if fenceChars.isPrefixOf line then
    match (line.drop 3).dropWhile isLowerAlpha with
    | ':' :: p => some (some p)
    | _ => some none
  else none

/-- The claim's line-based block scanner.  The first argument is `none`
outside a block and `some (label, accumulated lines)` inside one. -/
def specScanF (st : Option (Option (List Char) × List (List Char))) :
    List (List Char) → List (List Char × List Char)
  | [] => []
  | line :: rest =>
      match st with
      | none =>
          match lineFenceLabel line with
          | none => specScanF none rest
          | some label => specScanF (some (label, [])) rest
      | some (label, acc) =>
          if fenceChars.isPrefixOf line then
            match label with
            | some path =>
                (path, acc.reverse.flatMap (fun l => l ++ ['\n'])) :: specScanF none rest
            | none => specScanF none rest
          else specScanF (some (label, line :: acc)) rest

/-- Modelled from the spec sentence of claim C1: the map the claim says
`parseCodeBlocks` returns. -/
def specCodeBlocksMap (response : String) : List (String × String) :=
  (specScanF none (splitOnNl response.data)).foldl
    (fun files pc => putAssoc files (trimString (String.mk pc.1)) (String.mk pc.2)) []

/-- Counterexample to claim C1 as stated.  In the response below, the only
`language:path`-labelled fence line sits inside (and closes) an unlabelled
fenced block, and the final fence opens an unlabelled block, so by the
claim's description the map is empty: the labelled line is not the opening
fence of any fenced code block and the rest is fence text or text outside
blocks.  The code's regex, however, ignores unlabelled fences entirely and
extracts an entry for path "x". -/
theorem parseCodeBlocks_counterexample :
    parseCodeBlocks "```\nplain\n```go:x\ny\n```" = [("x", "y\n")] ∧
    specCodeBlocksMap "```\nplain\n```go:x\ny\n```" = [] := by
  refine ⟨by decide, by decide⟩

/-! Amended claim C1, proved constructively: on every response assembled
from labelled blocks and separator text, where separators and block
contents contain no backtick triple and do not end in a backtick, the
returned map is exactly the later-wins fold of (trimmed path ↦ content)
over the blocks in order. -/

structure CodeBlock where
  lang : List Char
  path : List Char
  content : List Char

/-- Render one block: fence, language, colon, path, newline, content,
closing fence. -/
def renderBlock (b : CodeBlock) : List Char :=
  fenceChars ++ b.lang ++ ':' :: b.path ++ '\n' :: b.content ++ fenceChars

/-- Interleave separator text and blocks. -/
def renderResponse (t0 : List Char) : List (CodeBlock × List Char) → List Char
  | [] => t0
  | (b, t) :: rest => t0 ++ renderBlock b ++ renderResponse t rest

/-- Separator text: no backtick triple and no trailing backtick. -/
def sepOk (s : List Char) : Bool :=
  !(containsSub fenceChars s) && (s.getLast? != some btick)

/-- Well-formed block: lowercase language, non-empty newline-free path, and
content with no backtick triple and no trailing backtick. -/
def blockOk (b : CodeBlock) : Bool :=
  b.lang.all isLowerAlpha && !b.path.isEmpty &&
    b.path.all (fun c => c != '\n') &&
    (!(containsSub fenceChars b.content) && (b.content.getLast? != some btick))

theorem sepOk_parts {s : List Char} (h : sepOk s = true) :
    containsSub fenceChars s = false ∧ s.getLast? ≠ some btick := by
  rw [sepOk, Bool.and_eq_true, Bool.not_eq_true', bne_iff_ne] at h
  exact h

theorem isPrefixOf_append_self (a b : List Char) : a.isPrefixOf (a ++ b) = true :=
  (isPrefixOf_eq_true_iff a (a ++ b)).mpr ⟨b, rfl⟩

theorem not_fence_prefix_of_sep (c : Char) (t X : List Char)
    (hf : containsSub fenceChars (c :: t) = false)
    (hl : (c :: t).getLast? ≠ some btick) :
    fenceChars.isPrefixOf (c :: (t ++ X)) = false := by
  by_contra hcon
  have h' : fenceChars.isPrefixOf (c :: (t ++ X)) = true := by
    simpa using hcon
  rcases (isPrefixOf_eq_true_iff _ _).mp h' with ⟨u, hu⟩
  match t with
  | [] =>
      have hc : c = btick := by
        have := congrArg (fun l => l.head?) hu
        simpa [fenceChars] using this.symm
      exact hl (by simp [hc])
  | [d] =>
      have hcd : c = btick ∧ d = btick := by
        rw [show fenceChars ++ u = btick :: btick :: btick :: u from rfl] at hu
        have h1 := congrArg (fun l => l.head?) hu
        have h2 := congrArg (fun l => l.tail.head?) hu
        constructor
        · simpa using h1.symm
        · simpa using h2.symm
      exact hl (by simp [hcd.2])
  | d :: e :: t' =>
      have hcde : c = btick ∧ d = btick ∧ e = btick := by
        rw [show fenceChars ++ u = btick :: btick :: btick :: u from rfl] at hu
        have h1 := congrArg (fun l => l.head?) hu
        have h2 := congrArg (fun l => l.tail.head?) hu
        have h3 := congrArg (fun l => l.tail.tail.head?) hu
        refine ⟨by simpa using h1.symm, by simpa using h2.symm, by simpa using h3.symm⟩
      have : containsSub fenceChars (c :: d :: e :: t') = true := by
        rw [containsSub]
        have hpre : fenceChars.isPrefixOf (c :: d :: e :: t') = true := by
          rcases hcde with ⟨rfl, rfl, rfl⟩
          exact (isPrefixOf_eq_true_iff _ _).mpr ⟨t', rfl⟩
        simp [hpre]
      rw [this] at hf
      exact absurd hf (by simp)

theorem tryOpen_none_of_not_fence {s : List Char}
    (h : fenceChars.isPrefixOf s = false) : tryOpen s = none := by
  simp [tryOpen, h]

theorem findOpen_skip (t X : List Char) (hsep : sepOk t = true) :
    findOpen (t ++ X) = findOpen X := by
  induction t with
  | nil => simp
  | cons c t' ih =>
      rcases sepOk_parts hsep with ⟨hf, hl⟩
      have hnp := not_fence_prefix_of_sep c t' X hf hl
      have ht : tryOpen (c :: (t' ++ X)) = none := tryOpen_none_of_not_fence hnp
      rw [List.cons_append, findOpen, ht]
      have hsep' : sepOk t' = true := by
        rw [sepOk, Bool.and_eq_true, Bool.not_eq_true', bne_iff_ne]
        constructor
        · have := hf
          rw [containsSub, Bool.or_eq_false_iff] at this
          exact this.2
        · cases t' with
          | nil => simp
          | cons d t'' => simpa [List.getLast?_cons_cons] using hl
      exact ih hsep'

theorem splitAtFence_exact (content rest : List Char)
    (hf : containsSub fenceChars content = false)
    (hl : content.getLast? ≠ some btick) :
    splitAtFence (content ++ (fenceChars ++ rest)) = some (content, rest) := by
  induction content with
  | nil =>
      rw [List.nil_append,
        show fenceChars ++ rest = btick :: (btick :: btick :: rest) from rfl,
        splitAtFence]
      have hpre : fenceChars.isPrefixOf (btick :: btick :: btick :: rest) = true :=
        isPrefixOf_append_self fenceChars rest
      simp [hpre]
  | cons c ct ih =>
      have hnp := not_fence_prefix_of_sep c ct (fenceChars ++ rest) hf hl
      rw [List.cons_append, splitAtFence]
      rw [if_neg (by simp [hnp])]
      have hf' : containsSub fenceChars ct = false := by
        have := hf
        rw [containsSub, Bool.or_eq_false_iff] at this
        exact this.2
      have hl' : ct.getLast? ≠ some btick := by
        cases ct with
        | nil => simp
        | cons d ct' => simpa [List.getLast?_cons_cons] using hl
      rw [ih hf' hl']
      rfl

theorem takeWhile_all_head (p : Char → Bool) (l : List Char) (c : Char) (r : List Char)
    (hall : l.all p = true) (hc : p c = false) :
    (l ++ c :: r).takeWhile p = l ∧ (l ++ c :: r).dropWhile p = c :: r := by
  induction l with
  | nil => simp [List.takeWhile_cons, List.dropWhile_cons, hc]
  | cons a l' ih =>
      rw [List.all_cons, Bool.and_eq_true] at hall
      have := ih hall.2
      simp [List.takeWhile_cons, List.dropWhile_cons, hall.1, this.1, this.2]

theorem tryOpen_render (b : CodeBlock) (rest : List Char) (hb : blockOk b = true) :
    tryOpen (renderBlock b ++ rest) =
      some (b.path, b.content ++ (fenceChars ++ rest)) := by
  rw [blockOk, Bool.and_eq_true, Bool.and_eq_true, Bool.and_eq_true] at hb
  obtain ⟨⟨⟨hlang, hpath⟩, hpathnl⟩, _⟩ := hb
  have hshape : renderBlock b ++ rest =
      fenceChars ++ (b.lang ++ ':' :: (b.path ++ '\n' :: (b.content ++ (fenceChars ++ rest)))) := by
    simp [renderBlock]
  rw [hshape, tryOpen]
  rw [if_pos (isPrefixOf_append_self _ _)]
  rw [show (fenceChars ++
      (b.lang ++ ':' :: (b.path ++ '\n' :: (b.content ++ (fenceChars ++ rest))))).drop 3 =
      b.lang ++ ':' :: (b.path ++ '\n' :: (b.content ++ (fenceChars ++ rest))) from rfl]
  have hdw := (takeWhile_all_head isLowerAlpha b.lang ':'
      (b.path ++ '\n' :: (b.content ++ (fenceChars ++ rest))) hlang (by decide)).2
  rw [hdw]
  have htp := takeWhile_all_head (fun c => c != '\n') b.path '\n'
      (b.content ++ (fenceChars ++ rest)) hpathnl (by decide)
  simp only [htp.1, htp.2]
  have hne : b.path.isEmpty = false := by
    simpa [Bool.not_eq_true'] using hpath
  simp [hne]

theorem findOpen_of_tryOpen_some {s : List Char} {r : List Char × List Char}
    (h : tryOpen s = some r) : findOpen s = some r := by
  cases s with
  | nil =>
      rw [show tryOpen [] = none from by decide] at h
      exact absurd h (by simp)
  | cons c t => rw [findOpen, h]

theorem scanBlocksF_render (bs : List (CodeBlock × List Char)) :
    ∀ (t0 : List Char) (fuel : Nat),
      (renderResponse t0 bs).length ≤ fuel →
      sepOk t0 = true →
      (∀ p ∈ bs, blockOk p.1 = true ∧ sepOk p.2 = true) →
      scanBlocksF fuel (renderResponse t0 bs) =
        bs.map (fun p => (p.1.path, p.1.content)) := by
  induction bs with
  | nil =>
      intro t0 fuel _ hsep _
      have hnone : findOpen (renderResponse t0 []) = none := by
        have h := findOpen_skip t0 [] hsep
        rw [List.append_nil] at h
        rw [show renderResponse t0 [] = t0 from rfl, h]
        rfl
      cases fuel with
      | zero => rfl
      | succ fuel =>
          rw [scanBlocksF, hnone]
          rfl
  | cons p bs' ih =>
      intro t0 fuel hfuel hsep hall
      obtain ⟨b, t1⟩ := p
      have hb := (hall (b, t1) (List.mem_cons_self _ _)).1
      have ht1 : sepOk t1 = true := (hall (b, t1) (List.mem_cons_self _ _)).2
      have hall' : ∀ q ∈ bs', blockOk q.1 = true ∧ sepOk q.2 = true :=
        fun q hq => hall q (List.mem_cons_of_mem _ hq)
      have hcont := (hall (b, t1) (List.mem_cons_self _ _)).1
      rw [blockOk, Bool.and_eq_true, Bool.and_eq_true, Bool.and_eq_true,
        Bool.and_eq_true, Bool.not_eq_true', bne_iff_ne] at hcont
      have hcf : containsSub fenceChars b.content = false := by
        simpa using hcont.2.1
      have hcl : b.content.getLast? ≠ some btick := hcont.2.2
      have hshape : renderResponse t0 ((b, t1) :: bs') =
          t0 ++ (renderBlock b ++ renderResponse t1 bs') := by
        simp [renderResponse]
      have hlen1 : 1 ≤ (renderBlock b).length := by
        simp [renderBlock, fenceChars]
      cases fuel with
      | zero =>
          exfalso
          rw [hshape] at hfuel
          simp only [List.length_append] at hfuel
          omega
      | succ fuel =>
          have hfuel' : (renderResponse t1 bs').length ≤ fuel := by
            rw [hshape] at hfuel
            simp only [List.length_append] at hfuel
            omega
          rw [hshape, scanBlocksF, findOpen_skip t0 _ hsep,
            findOpen_of_tryOpen_some (tryOpen_render b (renderResponse t1 bs') hb)]
          simp only [splitAtFence_exact b.content (renderResponse t1 bs') hcf hcl,
            ih t1 fuel hfuel' ht1 hall', List.map_cons]

/-- Claim C1 as amended: for every response assembled from fenced blocks
whose opening fences carry a `language:path` label (language a
possibly-empty lowercase run, path non-empty and newline-free) and whose
contents and separating text contain no backtick triple and do not end in
a backtick, `parseCodeBlocks` returns exactly one entry per distinct
trimmed path, mapping it to the content of the block, with the later block
winning when two blocks name the same path; the separating text outside
the blocks contributes nothing.  (The counterexample forces the further
restrictions: the code recognises fences anywhere, not only at line
starts, ignores unlabelled fences as delimiters, and ends a block at the
first backtick triple.) -/
theorem parseCodeBlocks_render (t0 : List Char) (bs : List (CodeBlock × List Char))
    (h0 : sepOk t0 = true) (hbs : ∀ p ∈ bs, blockOk p.1 = true ∧ sepOk p.2 = true) :
    parseCodeBlocks (String.mk (renderResponse t0 bs)) =
      bs.foldl (fun files p =>
        putAssoc files (trimString (String.mk p.1.path)) (String.mk p.1.content)) [] := by
  rw [parseCodeBlocks,
    show (String.mk (renderResponse t0 bs)).data = renderResponse t0 bs from rfl,
    scanBlocksF_render bs t0 _ le_rfl h0 hbs, List.foldl_map]

/-- Witness for `parseCodeBlocks_render`: two rendered blocks naming the
same path after trimming; the later content wins. -/
theorem parseCodeBlocks_render_witness :
    parseCodeBlocks (String.mk (renderResponse "intro\n".data
        [(⟨"go".data, " a.txt ".data, "hello\n".data⟩, "\nmid".data),
         (⟨"".data, "a.txt".data, "world\n".data⟩, "".data)])) =
      [("a.txt", "world\n")] := by
  rw [parseCodeBlocks_render "intro\n".data
      [(⟨"go".data, " a.txt ".data, "hello\n".data⟩, "\nmid".data),
       (⟨"".data, "a.txt".data, "world\n".data⟩, "".data)]
      (by decide) (by decide)]
  decide


/-! ### C8: `sanitizeError` (src/main.go:1036-1044)

`sanitizeError` runs four `regexp.ReplaceAllString` passes in order, for the
patterns `sk-ant-[a-zA-Z0-9-]+`, `sk-[a-zA-Z0-9]+`, `mcpb_[a-zA-Z0-9]+` and
`gg_pro_[a-zA-Z0-9]+`, replacing each match with its masked placeholder.
Each pattern is a literal followed by a non-empty greedy character class
run, so a Go leftmost match starts at the first position carrying the
literal followed by one class character and extends over the maximal class
run; replacement continues after the match without rescanning the
replacement text.  `replaceAll` below implements exactly that scan. -/

def isAlnumB (c : Char) : Bool :=
  (('a' ≤ c) && (c ≤ 'z')) || (('A' ≤ c) && (c ≤ 'Z')) || (('0' ≤ c) && (c ≤ '9'))

/-- A pattern of the shape literal-then-class-plus, with its replacement. -/
structure Pat where
  lit : List Char
  cls : Char → Bool
  repl : List Char

/-- Does a match start at the head of `s`? -/
def startB (p : Pat) (s : List Char) : Bool :=
  p.lit.isPrefixOf s &&
    (match s.drop p.lit.length with
     | [] => false
     | c :: _ => p.cls c)

/-- The input after the maximal match at the head of `s`. -/
def matchRest (p : Pat) (s : List Char) : List Char :=
  (s.drop p.lit.length).dropWhile p.cls

def replF (p : Pat) : Nat → List Char → List Char
  | _, [] => []
  | 0, s => s
  | n + 1, c :: t =>
      if startB p (c :: t) then p.repl ++ replF p n (matchRest p (c :: t))
      else c :: replF p n t

/-- `regexp.ReplaceAllString` for a literal-then-class-plus pattern. -/
def replaceAll (p : Pat) (s : List Char) : List Char := replF p s.length s

/-- No match of `p` starts anywhere in `s`. -/
def noMatchB (p : Pat) : List Char → Bool
  | [] => true
  | c :: t => !startB p (c :: t) && noMatchB p t

def pat1 : Pat := ⟨"sk-ant-".data, fun c => isAlnumB c || c = '-', "sk-***".data⟩
def pat2 : Pat := ⟨"sk-".data, isAlnumB, "sk-***".data⟩
def pat3 : Pat := ⟨"mcpb_".data, isAlnumB, "mcpb_***".data⟩
def pat4 : Pat := ⟨"gg_pro_".data, isAlnumB, "gg_pro_***".data⟩

/-- `sanitizeError`: the four replacement passes, in source order. -/
def sanitizeMsg (msg : List Char) : List Char :=
  replaceAll pat4 (replaceAll pat3 (replaceAll pat2 (replaceAll pat1 msg)))

def sanitizeError (msg : String) : String := String.mk (sanitizeMsg msg.data)

theorem startB_iff (p : Pat) (s : List Char) :
    startB p s = true ↔ ∃ c w, s = p.lit ++ c :: w ∧ p.cls c = true := by
  rw [startB, Bool.and_eq_true, isPrefixOf_eq_true_iff]
  constructor
  · rintro ⟨⟨u, hu⟩, hm⟩
    have hd : s.drop p.lit.length = u := by rw [← hu, List.drop_left]
    rw [hd] at hm
    cases u with
    | nil => simp at hm
    | cons c w => exact ⟨c, w, hu.symm, hm⟩
  · rintro ⟨c, w, rfl, hc⟩
    refine ⟨⟨c :: w, rfl⟩, ?_⟩
    rw [List.drop_left]
    exact hc

theorem noMatchB_head_false {p : Pat} {c : Char} {t : List Char}
    (h : noMatchB p (c :: t) = true) : startB p (c :: t) = false := by
  rw [noMatchB, Bool.and_eq_true, Bool.not_eq_true'] at h
  exact h.1

theorem noMatchB_tail {p : Pat} {c : Char} {t : List Char}
    (h : noMatchB p (c :: t) = true) : noMatchB p t = true := by
  rw [noMatchB, Bool.and_eq_true] at h
  exact h.2

theorem noMatchB_of_append (p : Pat) (a b : List Char)
    (h : noMatchB p (a ++ b) = true) : noMatchB p b = true := by
  induction a with
  | nil => simpa using h
  | cons c a' ih => exact ih (noMatchB_tail h)

theorem noMatchB_of_suffix (p : Pat) {a b : List Char} (h : a <:+ b)
    (hb : noMatchB p b = true) : noMatchB p a = true := by
  rcases h with ⟨u, rfl⟩
  exact noMatchB_of_append p u a hb

theorem matchRest_suffix (p : Pat) (s : List Char) : matchRest p s <:+ s :=
  (List.dropWhile_suffix p.cls).trans (List.drop_suffix _ _)

theorem matchRest_length (p : Pat) (hp : p.lit ≠ []) {s : List Char}
    (h : startB p s = true) : (matchRest p s).length + 2 ≤ s.length := by
  rcases (startB_iff p s).mp h with ⟨c, w, rfl, hc⟩
  rw [matchRest, List.drop_left,
    show (c :: w).dropWhile p.cls = w.dropWhile p.cls from by
      simp [List.dropWhile_cons, hc]]
  have h1 : (w.dropWhile p.cls).length ≤ w.length := (List.dropWhile_suffix p.cls).length_le
  have h2 : 1 ≤ p.lit.length := List.length_pos.mpr hp
  simp only [List.length_append, List.length_cons]
  omega

theorem replF_mono (p : Pat) (hp : p.lit ≠ []) :
    ∀ n m (s : List Char), s.length ≤ n → s.length ≤ m → replF p n s = replF p m s := by
  intro n
  induction n with
  | zero =>
      intro m s hn _
      have : s = [] := List.length_eq_zero.mp (Nat.le_zero.mp hn)
      subst this
      cases m <;> rfl
  | succ n ih =>
      intro m s hn hm
      cases s with
      | nil => cases m <;> rfl
      | cons c t =>
          match m, hm with
          | m + 1, hm =>
              rw [replF, replF]
              by_cases h : startB p (c :: t) = true
              · rw [if_pos h, if_pos h]
                have hlen := matchRest_length p hp h
                have hcl : (c :: t).length = t.length + 1 := rfl
                have h1 : (matchRest p (c :: t)).length ≤ n := by omega
                have h2 : (matchRest p (c :: t)).length ≤ m := by omega
                rw [ih m (matchRest p (c :: t)) h1 h2]
              · rw [if_neg (by simp [h]), if_neg (by simp [h])]
                simp only [List.length_cons] at hn hm
                rw [ih m t (by omega) (by omega)]

theorem replaceAll_pos (p : Pat) (hp : p.lit ≠ []) {c : Char} {t : List Char}
    (h : startB p (c :: t) = true) :
    replaceAll p (c :: t) = p.repl ++ replaceAll p (matchRest p (c :: t)) := by
  rw [replaceAll, show (c :: t).length = t.length + 1 from rfl, replF, if_pos h]
  have hlen := matchRest_length p hp h
  have hcl : (c :: t).length = t.length + 1 := rfl
  rw [replF_mono p hp t.length (matchRest p (c :: t)).length (matchRest p (c :: t))
    (by omega) le_rfl]
  rfl

theorem replaceAll_neg (p : Pat) {c : Char} {t : List Char}
    (h : startB p (c :: t) = false) :
    replaceAll p (c :: t) = c :: replaceAll p t := by
  rw [replaceAll, show (c :: t).length = t.length + 1 from rfl, replF, if_neg (by simp [h])]
  rfl

theorem noMatchB_append_repl (p : Pat) (R x : List Char)
    (hR : noMatchB p R = true)
    (hsp : ∀ i, i < R.length → (R.drop i).isPrefixOf p.lit = false)
    (hx : noMatchB p x = true) : noMatchB p (R ++ x) = true := by
  induction R with
  | nil => simpa using hx
  | cons r R' ih =>
      rw [List.cons_append, noMatchB, Bool.and_eq_true, Bool.not_eq_true']
      constructor
      · by_cases hst : startB p (r :: (R' ++ x)) = true
        · exfalso
          rcases (startB_iff _ _).mp hst with ⟨c, w, heq, hc⟩
          by_cases hlen : p.lit.length + 1 ≤ R'.length + 1
          · have htake : (r :: R').take (p.lit.length + 1) = p.lit ++ [c] := by
              have h1 : ((r :: R') ++ x).take (p.lit.length + 1) =
                  (p.lit ++ c :: w).take (p.lit.length + 1) := by
                rw [show (r :: R') ++ x = r :: (R' ++ x) from rfl, heq]
              rw [List.take_append_of_le_length (by simpa using hlen)] at h1
              rw [h1, show p.lit ++ c :: w = (p.lit ++ [c]) ++ w from by simp,
                List.take_append_of_le_length (by simp),
                show p.lit.length + 1 = (p.lit ++ [c]).length from by simp,
                List.take_length]
            have hstR : startB p (r :: R') = true := by
              apply (startB_iff _ _).mpr
              refine ⟨c, (r :: R').drop (p.lit.length + 1), ?_, hc⟩
              conv_lhs => rw [← List.take_append_drop (p.lit.length + 1) (r :: R')]
              rw [htake]
              simp
            have := noMatchB_head_false hR
            rw [hstR] at this
            exact absurd this (by simp)
          · have hle : R'.length + 1 ≤ p.lit.length := by omega
            have hRpre : (r :: R').isPrefixOf p.lit = true := by
              apply (isPrefixOf_eq_true_iff _ _).mpr
              refine ⟨p.lit.drop (R'.length + 1), ?_⟩
              have h1 : ((r :: R') ++ x).take (R'.length + 1) =
                  (p.lit ++ c :: w).take (R'.length + 1) := by
                rw [show (r :: R') ++ x = r :: (R' ++ x) from rfl, heq]
              rw [List.take_append_of_le_length (by simp),
                show R'.length + 1 = (r :: R').length from rfl, List.take_length,
                List.take_append_of_le_length (by simpa using hle)] at h1
              rw [show (r :: R').length = R'.length + 1 from rfl] at h1
              rw [h1, List.take_append_drop]
            have := hsp 0 (by simp)
            rw [List.drop_zero, hRpre] at this
            exact absurd this (by simp)
        · simpa using hst
      · apply ih (noMatchB_tail hR) ?_ 
        intro i hi
        have := hsp (i + 1) (by simpa using Nat.succ_lt_succ hi)
        simpa using this

theorem startB_transfer (p q : Pat) (hq : q.lit ≠ []) (hqr : q.repl ≠ [])
    (hhead : q.repl.head? = q.lit.head?)
    (hcond : ∀ k, k < p.lit.length → 1 ≤ k →
      (p.lit.drop k).isPrefixOf q.repl = false ∧
        q.repl.isPrefixOf (p.lit.drop k) = false) :
    ∀ (t : List Char) (k : Nat), 1 ≤ k → k ≤ p.lit.length →
      ∀ c w, replaceAll q t = (p.lit.drop k) ++ c :: w → p.cls c = true →
        ∃ c' w', t = (p.lit.drop k) ++ c' :: w' ∧ p.cls c' = true := by
  intro t
  induction t with
  | nil =>
      intro k _ _ c w heq _
      rw [show replaceAll q [] = [] from rfl] at heq
      exact absurd heq.symm (by simp)
  | cons d t' ih =>
      intro k hk1 hk2 c w heq hc
      by_cases hst : startB q (d :: t') = true
      · rw [replaceAll_pos q hq hst] at heq
        by_cases hkend : k < p.lit.length
        · by_cases hcmp : (p.lit.drop k).length ≤ q.repl.length
          · exfalso
            have hpre : (p.lit.drop k).isPrefixOf q.repl = true := by
              apply (isPrefixOf_eq_true_iff _ _).mpr
              refine ⟨q.repl.drop (p.lit.drop k).length, ?_⟩
              have h1 := congrArg (fun l => List.take (p.lit.drop k).length l) heq
              simp only at h1
              rw [List.take_append_of_le_length hcmp,
                List.take_append_of_le_length le_rfl, List.take_length] at h1
              nth_rewrite 1 [← h1]
              rw [List.take_append_drop]
            rw [(hcond k hkend hk1).1] at hpre
            exact absurd hpre (by simp)
          · exfalso
            have hlt : q.repl.length ≤ (p.lit.drop k).length := by omega
            have hpre : q.repl.isPrefixOf (p.lit.drop k) = true := by
              apply (isPrefixOf_eq_true_iff _ _).mpr
              refine ⟨(p.lit.drop k).drop q.repl.length, ?_⟩
              have h1 := congrArg (fun l => List.take q.repl.length l) heq
              simp only at h1
              rw [List.take_append_of_le_length le_rfl, List.take_length,
                List.take_append_of_le_length hlt] at h1
              nth_rewrite 1 [h1]
              rw [List.take_append_drop]
            rw [(hcond k hkend hk1).2] at hpre
            exact absurd hpre (by simp)
        · have hkeq : k = p.lit.length := le_antisymm hk2 (Nat.not_lt.mp hkend)
          have hdrop : p.lit.drop k = [] := by rw [hkeq]; exact List.drop_length _
          simp only [hdrop, List.nil_append] at heq ⊢
          rcases (startB_iff q _).mp hst with ⟨e, u, hdt, _⟩
          match hql : q.lit, hq with
          | l0 :: lit', _ =>
              rw [hql] at hdt
              have hd0 : d = l0 := by
                have := congrArg List.head? hdt
                simpa using this
              match hqrl : q.repl, hqr with
              | r0 :: repl', _ =>
                  rw [hqrl] at heq
                  have hc0 : r0 = c := by
                    have := congrArg List.head? heq
                    simpa using this
                  have hr0l0 : r0 = l0 := by
                    rw [hql, hqrl] at hhead
                    simpa using hhead
                  refine ⟨d, t', rfl, ?_⟩
                  rw [hd0, ← hr0l0, hc0]
                  exact hc
      · rw [replaceAll_neg q (by simpa using hst)] at heq
        by_cases hkend : k < p.lit.length
        · obtain ⟨e, l', hl⟩ : ∃ e l', p.lit.drop k = e :: l' := by
            cases hdk : p.lit.drop k with
            | nil =>
                exfalso
                have := List.drop_eq_nil_iff.mp hdk
                omega
            | cons e l' => exact ⟨e, l', rfl⟩
          rw [hl, List.cons_append] at heq
          injection heq with hde heq'
          have hl' : p.lit.drop (k + 1) = l' := by
            have : p.lit.drop (k + 1) = (p.lit.drop k).drop 1 := by
              rw [List.drop_drop]
            rw [this, hl]
            rfl
          rcases ih (k + 1) (by omega) (by omega) c w (by rw [hl']; exact heq') hc with
            ⟨c', w', ht', hc'⟩
          refine ⟨c', w', ?_, hc'⟩
          rw [hl, List.cons_append, hde]
          rw [hl'] at ht'
          rw [ht']
        · have hkeq : k = p.lit.length := le_antisymm hk2 (Nat.not_lt.mp hkend)
          have hdrop : p.lit.drop k = [] := by rw [hkeq]; exact List.drop_length _
          simp only [hdrop, List.nil_append] at heq ⊢
          injection heq with hde _
          exact ⟨d, t', rfl, by rw [hde]; exact hc⟩

theorem noMatchB_replaceAll_self (p : Pat) (hp : p.lit ≠ []) (hpr : p.repl ≠ [])
    (hhead : p.repl.head? = p.lit.head?)
    (hR : noMatchB p p.repl = true)
    (hsp : ∀ i, i < p.repl.length → (p.repl.drop i).isPrefixOf p.lit = false)
    (hcond : ∀ k, k < p.lit.length → 1 ≤ k →
      (p.lit.drop k).isPrefixOf p.repl = false ∧
        p.repl.isPrefixOf (p.lit.drop k) = false) :
    ∀ s, noMatchB p (replaceAll p s) = true := by
  suffices h : ∀ n (s : List Char), s.length ≤ n → noMatchB p (replaceAll p s) = true from
    fun s => h s.length s le_rfl
  intro n
  induction n with
  | zero =>
      intro s hs
      have : s = [] := List.length_eq_zero.mp (Nat.le_zero.mp hs)
      subst this
      rfl
  | succ n ih =>
      intro s hs
      cases s with
      | nil => rfl
      | cons c t =>
          have hcl : (c :: t).length = t.length + 1 := rfl
          by_cases h : startB p (c :: t) = true
          · rw [replaceAll_pos p hp h]
            have hlen := matchRest_length p hp h
            exact noMatchB_append_repl p p.repl _ hR hsp (ih _ (by omega))
          · rw [replaceAll_neg p (by simpa using h)]
            rw [noMatchB, Bool.and_eq_true, Bool.not_eq_true']
            refine ⟨?_, ih t (by omega)⟩
            by_cases hc2 : startB p (c :: replaceAll p t) = true
            · exfalso
              rcases (startB_iff _ _).mp hc2 with ⟨c', w, heq, hcc⟩
              match hpl : p.lit, hp with
              | l0 :: lit1, _ =>
                  rw [hpl, List.cons_append] at heq
                  injection heq with h1 h2
                  have hlit1 : p.lit.drop 1 = lit1 := by rw [hpl]; rfl
                  rcases startB_transfer p p hp hpr hhead hcond t 1 le_rfl
                      (by rw [hpl]; simp) c' w (by rw [hlit1]; exact h2) hcc with
                    ⟨c'', w'', ht, hcc''⟩
                  rw [hlit1] at ht
                  have : startB p (c :: t) = true := by
                    apply (startB_iff _ _).mpr
                    refine ⟨c'', w'', ?_, hcc''⟩
                    rw [h1, ht, hpl]
                    rfl
                  exact h this
            · simpa using hc2

theorem noMatchB_replaceAll_other (p q : Pat) (hp : p.lit ≠ []) (hq : q.lit ≠ [])
    (hqr : q.repl ≠ []) (hhead : q.repl.head? = q.lit.head?)
    (hR : noMatchB p q.repl = true)
    (hsp : ∀ i, i < q.repl.length → (q.repl.drop i).isPrefixOf p.lit = false)
    (hcond : ∀ k, k < p.lit.length → 1 ≤ k →
      (p.lit.drop k).isPrefixOf q.repl = false ∧
        q.repl.isPrefixOf (p.lit.drop k) = false) :
    ∀ s, noMatchB p s = true → noMatchB p (replaceAll q s) = true := by
  suffices h : ∀ n (s : List Char), s.length ≤ n → noMatchB p s = true →
      noMatchB p (replaceAll q s) = true from
    fun s => h s.length s le_rfl
  intro n
  induction n with
  | zero =>
      intro s hs _
      have : s = [] := List.length_eq_zero.mp (Nat.le_zero.mp hs)
      subst this
      rfl
  | succ n ih =>
      intro s hs hnm
      cases s with
      | nil => rfl
      | cons c t =>
          have hcl : (c :: t).length = t.length + 1 := rfl
          by_cases h : startB q (c :: t) = true
          · rw [replaceAll_pos q hq h]
            have hlen := matchRest_length q hq h
            refine noMatchB_append_repl p q.repl _ hR hsp ?_
            refine ih _ (by omega) ?_
            exact noMatchB_of_suffix p (matchRest_suffix q (c :: t)) hnm
          · rw [replaceAll_neg q (by simpa using h)]
            rw [noMatchB, Bool.and_eq_true, Bool.not_eq_true']
            refine ⟨?_, ih t (by omega) (noMatchB_tail hnm)⟩
            by_cases hc2 : startB p (c :: replaceAll q t) = true
            · exfalso
              rcases (startB_iff _ _).mp hc2 with ⟨c', w, heq, hcc⟩
              match hpl : p.lit, hp with
              | l0 :: lit1, _ =>
                  rw [hpl, List.cons_append] at heq
                  injection heq with h1 h2
                  have hlit1 : p.lit.drop 1 = lit1 := by rw [hpl]; rfl
                  rcases startB_transfer p q hq hqr hhead hcond t 1 le_rfl
                      (by rw [hpl]; simp) c' w (by rw [hlit1]; exact h2) hcc with
                    ⟨c'', w'', ht, hcc''⟩
                  rw [hlit1] at ht
                  have hcs : startB p (c :: t) = true := by
                    apply (startB_iff _ _).mpr
                    refine ⟨c'', w'', ?_, hcc''⟩
                    rw [h1, ht, hpl]
                    rfl
                  have := noMatchB_head_false hnm
                  rw [hcs] at this
                  exact absurd this (by simp)
            · simpa using hc2

/-- Counterexample to claim C8 as stated: in "mcpb_gg_pro_abc" the maximal
occurrence of `gg_pro_[a-zA-Z0-9]+` is "gg_pro_abc", but the earlier
`mcpb_` pass consumes its "gg" characters, so the final message is
"mcpb_***_pro_abc" and the placeholder "gg_pro_***" never appears: not
every maximal occurrence of each pattern is replaced by its own masked
placeholder. -/
theorem sanitizeError_counterexample :
    noMatchB pat4 "mcpb_gg_pro_abc".data = false ∧
    sanitizeError "mcpb_gg_pro_abc" = "mcpb_***_pro_abc" ∧
    containsSub "gg_pro_***".data (sanitizeError "mcpb_gg_pro_abc").data = false := by
  refine ⟨by decide, by decide, by decide⟩

/-- Claim C8 as amended: the four replacements are applied sequentially in
the order sk-ant-, sk-, mcpb_, gg_pro_; when occurrences of different
patterns overlap, an earlier pass may consume part of a later pattern's
occurrence so the later placeholder need not appear, but the resulting
message of `sanitizeError` contains no substring matching any of the four
secret-key patterns, so the API-error paths of `gg ask` and `gg edit`
never print a configured API key or Pro license key. -/
theorem sanitizeError_no_secret_patterns (msg : String) :
    noMatchB pat1 (sanitizeError msg).data = true ∧
    noMatchB pat2 (sanitizeError msg).data = true ∧
    noMatchB pat3 (sanitizeError msg).data = true ∧
    noMatchB pat4 (sanitizeError msg).data = true := by
  have hdata : (sanitizeError msg).data = sanitizeMsg msg.data := rfl
  rw [hdata, sanitizeMsg]
  refine ⟨?_, ?_, ?_, ?_⟩
  · exact noMatchB_replaceAll_other pat1 pat4 (by decide) (by decide) (by decide)
      (by decide) (by decide) (by decide) (by decide) _
      (noMatchB_replaceAll_other pat1 pat3 (by decide) (by decide) (by decide)
        (by decide) (by decide) (by decide) (by decide) _
        (noMatchB_replaceAll_other pat1 pat2 (by decide) (by decide) (by decide)
          (by decide) (by decide) (by decide) (by decide) _
          (noMatchB_replaceAll_self pat1 (by decide) (by decide) (by decide)
            (by decide) (by decide) (by decide) msg.data)))
  · exact noMatchB_replaceAll_other pat2 pat4 (by decide) (by decide) (by decide)
      (by decide) (by decide) (by decide) (by decide) _
      (noMatchB_replaceAll_other pat2 pat3 (by decide) (by decide) (by decide)
        (by decide) (by decide) (by decide) (by decide) _
        (noMatchB_replaceAll_self pat2 (by decide) (by decide) (by decide)
          (by decide) (by decide) (by decide) (replaceAll pat1 msg.data)))
  · exact noMatchB_replaceAll_other pat3 pat4 (by decide) (by decide) (by decide)
      (by decide) (by decide) (by decide) (by decide) _
      (noMatchB_replaceAll_self pat3 (by decide) (by decide) (by decide)
        (by decide) (by decide) (by decide) (replaceAll pat2 (replaceAll pat1 msg.data)))
  · exact noMatchB_replaceAll_self pat4 (by decide) (by decide) (by decide)
      (by decide) (by decide) (by decide)
      (replaceAll pat3 (replaceAll pat2 (replaceAll pat1 msg.data)))

end GG
